import Mathlib

/-!
Verification development for the AZSL editor-tooling symbol-resolution engine
(`src/extension.js`).  The JavaScript source is shallowly embedded: lines are
lists of characters, the regular expressions of the source are translated into
explicit character-list matchers with the same backtracking order, and the
mutable index tables become explicit association lists threaded through the
functions.  Every definition mirrors a named function or a delimited block of
`src/extension.js`; the line numbers of the mirrored block are given in the
doc comments.
-/

namespace Azsl

/-! ## Character and character-list utilities

JavaScript strings are modelled as `List Char`.  `\s` of the source's regular
expressions is modelled by `isWsChar` (space and tab and the rare vertical
whitespace; `\r` and `\n` cannot occur because every scanner first splits on
line breaks).  `\w` and the identifier classes `[A-Za-z_]` / `[A-Za-z0-9_]`
are modelled by `isWordChar`, `isIdentStart`, `isIdentChar`. -/

abbrev Chars := List Char

/-- The opening brace character, `\x7b`. -/
def lbrace : Char := '\x7b'

/-- The closing brace character, `\x7d`. -/
def rbrace : Char := '\x7d'

def isWsChar (c : Char) : Bool :=
  c = ' ' || c = '\t' || c = '\x0b' || c = '\x0c'

def isUpperAlpha (c : Char) : Bool := 'A' ≤ c && c ≤ 'Z'

def isLowerAlpha (c : Char) : Bool := 'a' ≤ c && c ≤ 'z'

def isAlphaChar (c : Char) : Bool := isUpperAlpha c || isLowerAlpha c

def isDigitChar (c : Char) : Bool := '0' ≤ c && c ≤ '9'

/-- The class `[A-Za-z_]`. -/
def isIdentStart (c : Char) : Bool := isAlphaChar c || c = '_'

/-- The class `[A-Za-z0-9_]`, which also models `\w`. -/
def isIdentChar (c : Char) : Bool := isAlphaChar c || isDigitChar c || c = '_'

abbrev isWordChar := isIdentChar

def dropWs : Chars → Chars
  | [] => []
  | c :: cs => if isWsChar c then dropWs cs else c :: cs

/-- JavaScript `String.prototype.trim` restricted to the whitespace that can
occur inside a split line. -/
def trim (l : Chars) : Chars :=
  ((dropWs ((dropWs l).reverse)).reverse)

/-- A line is blank when it matches `/^\s*$/`. -/
def isBlank (l : Chars) : Bool := (dropWs l).isEmpty

def startsWithChars (pre l : Chars) : Bool := List.isPrefixOf pre l

def endsWithChars (suf l : Chars) : Bool := List.isPrefixOf suf.reverse l.reverse

/-- Substring containment, `String.prototype.includes`. -/
def containsSub (sub : Chars) : Chars → Bool
  | [] => sub.isEmpty
  | c :: cs => startsWithChars sub (c :: cs) || containsSub sub cs

/-- `String.prototype.indexOf` for a substring: index of the first occurrence. -/
def indexOfSubAux (sub : Chars) (acc : Nat) : Chars → Option Nat
  | [] => if sub.isEmpty then some acc else none
  | c :: cs =>
    if startsWithChars sub (c :: cs) then some acc else indexOfSubAux sub (acc + 1) cs

def indexOfSub (l sub : Chars) : Option Nat := indexOfSubAux sub 0 l

/-- `String.prototype.lastIndexOf` for a single character. -/
def lastIndexOfChar (l : Chars) (c : Char) : Option Nat :=
  (indexOfSub l.reverse [c]).map (fun i => l.length - 1 - i)

def containsChar (l : Chars) (c : Char) : Bool := l.contains c

/-- Take the maximal prefix of word characters together with the remainder. -/
def takeWord : Chars → Chars × Chars
  | [] => ([], [])
  | c :: cs =>
    if isWordChar c then
      let (w, r) := takeWord cs
      (c :: w, r)
    else ([], c :: cs)

/-- Match one identifier, `[A-Za-z_][A-Za-z0-9_]*`, greedily.  Returns the
identifier and the remainder. -/
def matchIdent (l : Chars) : Option (Chars × Chars) :=
  match l with
  | [] => none
  | c :: cs =>
    if isIdentStart c then
      let (w, r) := takeWord cs
      some (c :: w, r)
    else none

/-- Match a literal string. -/
def matchLit (lit : Chars) (l : Chars) : Option Chars :=
  if startsWithChars lit l then some (l.drop lit.length) else none

/-- Match `\s+`. -/
def matchWs1 (l : Chars) : Option Chars :=
  match l with
  | [] => none
  | c :: cs => if isWsChar c then some (dropWs cs) else none

/-- Count occurrences of a character, `(line.match(/c/g) || []).length`. -/
def countChar (l : Chars) (c : Char) : Nat := (l.filter (· = c)).length

/-- Net brace contribution of a line: open braces minus close braces, as used
by every brace-depth counter of the source (`{` and `}` are counted anywhere
in the raw line, comments and strings included). -/
def braceDelta (l : Chars) : Int :=
  (countChar l lbrace : Int) - (countChar l rbrace : Int)

def ofStr (s : String) : Chars := s.data

def toStr (l : Chars) : String := String.mk l

end Azsl

namespace Azsl

/-! ## Comment stripping shared by the option scanner and the
option/fallback pass of `validateDocument`

`extractOptionDeclarations` (src/extension.js:799-860) and the option/SRG
pass of `validateDocument` (src/extension.js:3628-3712) strip comments with
the same stateful per-line logic: a multi-line comment state is carried
across lines; only the first `/* ... */` pair of a line is removed; the part
after `//` is dropped. -/

/-- One line of the comment-stripping loop.  Returns the new multi-line-
comment state and the processed line, or `none` when the whole line is
swallowed (`continue` while still inside a multi-line comment).
Mirrors src/extension.js:807-834. -/
def stripCommentsLine (inML : Bool) (line : Chars) : Bool × Option Chars :=
  let step1 : Option Chars :=
    if inML then
      match indexOfSub line (ofStr "*/") with
      | some k => some (line.drop (k + 2))
      | none => none
    else some line
  match step1 with
  | none => (true, none)
  | some l1 =>
    let (inML2, l2) :=
      match indexOfSub l1 (ofStr "/*") with
      | some s =>
        match indexOfSub (l1.drop (s + 2)) (ofStr "*/") with
        | some e => (false, l1.take s ++ (l1.drop (s + 2)).drop (e + 2))
        | none => (true, l1.take s)
      | none => (false, l1)
    let l3 :=
      match indexOfSub l2 (ofStr "//") with
      | some k => l2.take k
      | none => l2
    (inML2, some l3)

/-! ## Option scanner (claim C9)

`extractOptionDeclarations` (src/extension.js:799-860) matches
`/^\s*option\s+(?:static\s+)?(bool|int|uint)\s+([A-Za-z_][A-Za-z0-9_]*)\s*[=;]/`
against each comment-stripped line and records
`isStatic = processedLine.includes('static')` with a first-wins map. -/

/-- Match `(bool|int|uint)\s+` after the option keyword; ordered literal
alternatives followed by mandatory whitespace. -/
def matchOptionType (l : Chars) : Option Chars :=
  match matchLit (ofStr "bool") l with
  | some r => matchWs1 r
  | none =>
    match matchLit (ofStr "int") l with
    | some r => matchWs1 r
    | none =>
      match matchLit (ofStr "uint") l with
      | some r => matchWs1 r
      | none => none

/-- The regex of src/extension.js:844 (`option [static] bool|int|uint NAME [=;]`),
anchored at the start of the (already processed) line.  Returns the captured
option name. -/
def matchOptionDecl (line : Chars) : Option Chars :=
  let l := dropWs line
  match matchLit (ofStr "option") l with
  | none => none
  | some r0 =>
    match matchWs1 r0 with
    | none => none
    | some r1 =>
      -- `(?:static\s+)?`: try the static branch first (greedy optional group)
      let afterStatic : Chars :=
        match matchLit (ofStr "static") r1 with
        | some rs =>
          match matchWs1 rs with
          | some rs2 => if (matchOptionType rs2).isSome then rs2 else r1
          | none => r1
        | none => r1
      match matchOptionType afterStatic with
      | none => none
      | some r2 =>
        match matchIdent r2 with
        | none => none
        | some (name, r3) =>
          match dropWs r3 with
          | c :: _ => if c = '=' || c = ';' then some name else none
          | [] => none

structure OptionEntry where
  isStatic : Bool
  line : Nat
  deriving DecidableEq, Repr

/-- `extractOptionDeclarations` (src/extension.js:799-860): walk the lines,
stripping comments, matching the option regex, and inserting first-wins
entries whose `isStatic` flag is `processedLine.includes('static')`. -/
def extractOptionDeclarations (lines : List Chars) : List (String × OptionEntry) :=
  let step := fun (st : Bool × Nat × List (String × OptionEntry)) (line : Chars) =>
    let (inML, i, acc) := st
    let (inML2, processed?) := stripCommentsLine inML line
    match processed? with
    | none => (inML2, i + 1, acc)
    | some l =>
      let processedLine := trim l
      if processedLine.isEmpty then (inML2, i + 1, acc)
      else
        match matchOptionDecl processedLine with
        | some name =>
          let nameS := toStr name
          if (acc.lookup nameS).isSome then (inML2, i + 1, acc)
          else
            (inML2, i + 1,
              acc ++ [(nameS, ⟨containsSub (ofStr "static") processedLine, i⟩)])
        | none => (inML2, i + 1, acc)
  (lines.foldl step (false, 0, [])).2.2

end Azsl

namespace Azsl

/-! ## The option / ShaderVariantFallback pass of `validateDocument` (claim C1)

src/extension.js:3608-3728.  The pass decides `isAzslFile` from the file
name, collects non-static options from the option index (only for `.azsl`
files) and from the comment-stripped document lines, records whether any SRG
declaration uses a fallback-capable semantic, emits a "semantic not found"
error for SRG declarations whose semantic is not in the semantic index, and
finally emits the document-level ShaderVariantFallback error on line 0. -/

/-- A diagnostic of the validation sweep: the line it is anchored to and its
message. -/
structure Diag where
  line : Nat
  message : String
  deriving DecidableEq, Repr

/-- src/extension.js:3610: `fileName.endsWith('.azsl') && !fileName.endsWith('.azsli')`. -/
def isAzslFile (fileName : String) : Bool :=
  endsWithChars (ofStr ".azsl") (ofStr fileName) &&
    !(endsWithChars (ofStr ".azsli") (ofStr fileName))

/-- src/extension.js:3615: the semantics that carry a ShaderVariantFallback. -/
def variantFallbackSemantics : List String :=
  ["SRG_PerDraw", "SRG_PerPass_WithFallback", "SRG_RayTracingGlobal"]

/-- Try the core of the SRG regex of src/extension.js:3690 at one position:
`ShaderResourceGroup\s+([A-Za-z_][A-Za-z0-9_]*)\s*:\s*([A-Za-z_][A-Za-z0-9_]*)`. -/
def matchSrgCore (l : Chars) : Option (Chars × Chars) :=
  match matchLit (ofStr "ShaderResourceGroup") l with
  | none => none
  | some r0 =>
    match matchWs1 r0 with
    | none => none
    | some r1 =>
      match matchIdent r1 with
      | none => none
      | some (name, r2) =>
        match dropWs r2 with
        | ':' :: r3 =>
          match matchIdent (dropWs r3) with
          | some (sem, _) => some (name, sem)
          | none => none
        | _ => none

/-- Try the full SRG regex (optional `partial\s+` first, as the greedy
optional group is attempted before the bare alternative) at one position. -/
def matchSrgAt (l : Chars) : Option (Chars × Chars) :=
  let viaPartial :=
    match matchLit (ofStr "partial") l with
    | some r =>
      match matchWs1 r with
      | some r2 => matchSrgCore r2
      | none => none
    | none => none
  match viaPartial with
  | some x => some x
  | none => matchSrgCore l

/-- Leftmost match of the (unanchored, boundary-free) SRG regex of
src/extension.js:3690. -/
def matchSrgLine : Chars → Option (Chars × Chars)
  | [] => none
  | c :: cs =>
    match matchSrgAt (c :: cs) with
    | some x => some x
    | none => matchSrgLine cs

/-- The non-static-option regex of src/extension.js:3675 (no `static`
alternative): `^\s*option\s+(?:bool|int|uint)\s+([A-Za-z_][A-Za-z0-9_]*)\s*[=;]`. -/
def matchNonStaticOptionDecl (line : Chars) : Option Chars :=
  let l := dropWs line
  match matchLit (ofStr "option") l with
  | none => none
  | some r0 =>
    match matchWs1 r0 with
    | none => none
    | some r1 =>
      match matchOptionType r1 with
      | none => none
      | some r2 =>
        match matchIdent r2 with
        | none => none
        | some (name, r3) =>
          match dropWs r3 with
          | c :: _ => if c = '=' || c = ';' then some name else none
          | [] => none

/-- State of the option / SRG scanning loop of src/extension.js:3631-3712. -/
structure FallbackScanState where
  inML : Bool
  lineIdx : Nat
  nonStatic : List String
  hasFallback : Bool
  diags : List Diag
  deriving Repr

/-- The non-static-option collection step of src/extension.js:3675-3686,
applied to one comment-stripped trimmed line. -/
def fallbackNonStatic (nonStatic : List String) (p : Chars) : List String :=
  match matchNonStaticOptionDecl p with
  | some name =>
    if containsSub (ofStr "static") p then nonStatic
    else
      let nameS := toStr name
      if nonStatic.contains nameS then nonStatic
      else nonStatic ++ [nameS]
  | none => nonStatic

/-- The SRG-declaration step of src/extension.js:3690-3711, applied to one
comment-stripped trimmed line: the updated has-fallback flag and diagnostics. -/
def fallbackSrgStep (srgSemanticIndex : List String) (hasFallback : Bool)
    (diags : List Diag) (lineIdx : Nat) (p : Chars) : Bool × List Diag :=
  match matchSrgLine p with
  | some (srgName, semName) =>
    let semS := toStr semName
    let diags2 :=
      if srgSemanticIndex.contains semS then diags
      else
        diags ++
          [⟨lineIdx,
            "Declaration for semantic " ++ semS ++ " used in SRG " ++
              toStr srgName ++ " was not found"⟩]
    (hasFallback || variantFallbackSemantics.contains semS, diags2)
  | none => (hasFallback, diags)

/-- One iteration of the loop of src/extension.js:3631-3712. -/
def fallbackScanLine (srgSemanticIndex : List String) (st : FallbackScanState)
    (line : Chars) : FallbackScanState :=
  match stripCommentsLine st.inML line with
  | (inML2, none) => { st with inML := inML2, lineIdx := st.lineIdx + 1 }
  | (inML2, some l) =>
    let processedLine := trim l
    if processedLine.isEmpty then { st with inML := inML2, lineIdx := st.lineIdx + 1 }
    else
      ⟨inML2, st.lineIdx + 1, fallbackNonStatic st.nonStatic processedLine,
        (fallbackSrgStep srgSemanticIndex st.hasFallback st.diags st.lineIdx processedLine).1,
        (fallbackSrgStep srgSemanticIndex st.hasFallback st.diags st.lineIdx processedLine).2⟩

/-- src/extension.js:3720: the exact message of the document-level error. -/
def fallbackErrorMessage : String :=
  "If you have non-static options, one SRG must be designated as the default ShaderVariantFallback"

/-- The non-static options contributed by the option index
(src/extension.js:3618-3624): only for `.azsl` files, all indexed options
whose static flag is false. -/
def fallbackFromIndex (fileName : String) (optionIndex : List (String × Bool)) :
    List String :=
  if isAzslFile fileName then (optionIndex.filter (fun p => !p.2)).map Prod.fst
  else []

/-- The final state of the option / SRG scanning loop over the document. -/
def fallbackFinal (srgSemanticIndex : List String) (lines : List Chars)
    (fromIdx : List String) : FallbackScanState :=
  lines.foldl (fallbackScanLine srgSemanticIndex) ⟨false, 0, fromIdx, false, []⟩

/-- The option / ShaderVariantFallback pass of `validateDocument`
(src/extension.js:3608-3728).  `optionIndex` is the indexed option table as
pairs of name and is-static flag, `srgSemanticIndex` the names of the indexed
SRG semantics; the result is the list of diagnostics the pass pushes, the
fallback error (if any) last and anchored to line 0. -/
def fallbackPassDiags (fileName : String) (optionIndex : List (String × Bool))
    (srgSemanticIndex : List String) (lines : List Chars) : List Diag :=
  (fallbackFinal srgSemanticIndex lines (fallbackFromIndex fileName optionIndex)).diags ++
    (if isAzslFile fileName &&
        !(fallbackFinal srgSemanticIndex lines (fallbackFromIndex fileName optionIndex)).nonStatic.isEmpty &&
        !(fallbackFinal srgSemanticIndex lines (fallbackFromIndex fileName optionIndex)).hasFallback then
      [⟨0, fallbackErrorMessage⟩]
    else [])

/-- The multi-line-comment flag after stripping one line. -/
def scanInML (inML : Bool) (line : Chars) : Bool :=
  (stripCommentsLine inML line).1

/-- A scanning step that carries the comment state and accumulates a Boolean
hit over the comment-stripped lines. -/
def hitStep (hit : Bool → Chars → Bool) (st : Bool × Bool) (line : Chars) :
    Bool × Bool :=
  (scanInML st.1 line, st.2 || hit st.1 line)

/-- Whether one comment-stripped trimmed line declares a non-static option:
it matches the non-static option regex and does not contain `static`. -/
def nsHitCore (p : Chars) : Bool :=
  (matchNonStaticOptionDecl p).isSome && !containsSub (ofStr "static") p

/-- Whether one comment-stripped trimmed line declares an SRG with a
fallback-capable semantic. -/
def fbHitCore (p : Chars) : Bool :=
  match matchSrgLine p with
  | some (_, sem) => variantFallbackSemantics.contains (toStr sem)
  | none => false

/-- The non-static-option hit of one raw line under a comment state. -/
def nsHit (inML : Bool) (line : Chars) : Bool :=
  match stripCommentsLine inML line with
  | (_, none) => false
  | (_, some l) => if (trim l).isEmpty then false else nsHitCore (trim l)

/-- The fallback-SRG hit of one raw line under a comment state. -/
def fbHit (inML : Bool) (line : Chars) : Bool :=
  match stripCommentsLine inML line with
  | (_, none) => false
  | (_, some l) => if (trim l).isEmpty then false else fbHitCore (trim l)

/-- Whether a document line sequence declares a non-static option, stated
independently of the scanning state: some comment-stripped line matches the
non-static option regex and does not contain the substring `static`. -/
def docDeclaresNonStaticOption (lines : List Chars) : Bool :=
  (lines.foldl (hitStep nsHit) (false, false)).2

/-- Whether some comment-stripped line of the document declares an SRG with a
fallback-capable semantic. -/
def docDeclaresFallbackSrg (lines : List Chars) : Bool :=
  (lines.foldl (hitStep fbHit) (false, false)).2

end Azsl

namespace Azsl

/-! ## Association-list helpers for the index tables -/

/-- `Map.set`: replace the binding if the key is present, append otherwise. -/
def alistSet {α : Type} (l : List (String × α)) (k : String) (v : α) :
    List (String × α) :=
  if (l.lookup k).isSome then
    l.map (fun p => if p.1 = k then (k, v) else p)
  else l ++ [(k, v)]

/-- `Map.has`. -/
def alistHas {α : Type} (l : List (String × α)) (k : String) : Bool :=
  (l.lookup k).isSome

/-! ## The symbol index and the reset prefix of `indexHeaders` (claim C3)

src/extension.js:5-18 declares the process-wide tables; the reset-and-reseed
prefix of `indexHeaders` is src/extension.js:1060-1099. -/

/-- A source location (URI plus zero-based line). -/
structure Loc where
  uri : String
  line : Nat
  deriving DecidableEq, Repr

/-- A macro-index entry (src/extension.js:1120-1125). -/
structure MacroEntry where
  value : String
  doc : String
  uri : String
  line : Nat
  deriving DecidableEq, Repr

/-- The process-wide symbol index (src/extension.js:5-18), with every
JavaScript `Map`/`Set` modelled as an association list / list. -/
structure IndexState where
  indexedSymbols : List String
  headersPathIndex : List (String × String)
  headersBasenameIndex : List (String × List String)
  macroIndex : List (String × MacroEntry)
  atomMethodIndex : List (String × Loc)
  atomTypeMembers : List (String × List String)
  srgSemanticIndex : List (String × Loc)
  srgMembers : List (String × List String)
  srgMemberIndex : List (String × Loc)
  srgIndex : List (String × Loc)
  structIndex : List (String × Loc)
  structMembers : List (String × List String)
  functionIndex : List (String × Loc)
  optionIndex : List (String × OptionEntry)
  deriving Repr

/-- src/extension.js:1076-1086: the built-in SRG semantics seeded on every
reindex. -/
def builtinSrgSemantics : List String :=
  ["SRG_PerDraw", "SRG_PerMaterial", "SRG_PerPass", "SRG_PerPass_WithFallback",
   "SRG_PerScene", "SRG_PerView", "SRG_PerSubMesh", "SRG_RayTracingGlobal",
   "SRG_RayTracingLocal"]

/-- src/extension.js:1094-1099: the Atom-type member baselines seeded on every
reindex. -/
def seededAtomTypeMembers : List (String × List String) :=
  [("Surface",
    ["CalculateRoughnessA", "SetAlbedoAndSpecularF0", "GetDefaultNormal",
     "GetSpecularF0"]),
   ("LightingData",
    ["Init", "FinalizeLighting", "CalculateMultiscatterCompensation",
     "GetSpecularNdotV"])]

/-- The reset-and-reseed prefix of `indexHeaders` (src/extension.js:1060-1099),
executed before any file is scanned.  It clears thirteen tables with
`.clear()` and then seeds the built-in SRG semantics and the Atom-type member
baselines.  `functionIndex` does not appear in the clearing block, so its
contents survive unchanged into the rebuilt index. -/
def clearAndSeed (s : IndexState) : IndexState :=
  { indexedSymbols := [],
    headersPathIndex := [],
    headersBasenameIndex := [],
    macroIndex := [],
    atomMethodIndex := [],
    atomTypeMembers := seededAtomTypeMembers,
    srgSemanticIndex :=
      builtinSrgSemantics.map
        (fun n => (n, ⟨"azsl-builtin://srg-semantics", 0⟩)),
    srgMembers := [],
    srgMemberIndex := [],
    srgIndex := [],
    structIndex := [],
    structMembers := [],
    functionIndex := s.functionIndex,
    optionIndex := [] }

/-! ## Struct-member ingestion (claim C4)

The member-merge loops of `indexHeaders` (src/extension.js:1188-1199) and of
`validateDocument` (src/extension.js:3435-3447) are identical: ensure a
member set exists for the struct name and `Set.add` every scanned member into
it.  Nothing is ever removed. -/

/-- `Set.add` on the list model: append if absent. -/
def setAdd (l : List String) (m : String) : List String :=
  if l.contains m then l else l ++ [m]

/-- Merge the member sets of one scan result into the `structMembers` table,
mirroring src/extension.js:1188-1199 (and the identical
src/extension.js:3435-3447). -/
def mergeStructMembers (tbl : List (String × List String))
    (decls : List (String × List String)) : List (String × List String) :=
  decls.foldl
    (fun t p =>
      let cur := (t.lookup p.1).getD []
      alistSet t p.1 (p.2.foldl setAdd cur))
    tbl

/-! ## Macro extraction and the doc-length merge policy (claim C6)

`extractMacrosWithComments` is src/extension.js:208-269; the corpus merge is
src/extension.js:1116-1127; the live-document merge is
src/extension.js:2038-2048. -/

/-- A record returned by the macro scanner (src/extension.js:244). -/
structure MacroDef where
  name : String
  value : String
  line : Nat
  doc : String
  deriving DecidableEq, Repr

/-- `trimRight` for the `\s*$` suffixes of the comment-assembly regexes. -/
def trimRight (l : Chars) : Chars := (dropWs l.reverse).reverse

/-- Whitespace for operations on block-comment text joined with `\n`
(JavaScript `\s` includes the newline). -/
def isWsCharNL (c : Char) : Bool := isWsChar c || c = '\n'

def dropWsNL : Chars → Chars
  | [] => []
  | c :: cs => if isWsCharNL c then dropWsNL cs else c :: cs

/-- Parse `^\s*#\s*define\s+NAME ...` and deterministically reproduce the
captures of the regex
`^\s*#\s*define\s+([A-Za-z_][A-Za-z0-9_]*)(?:\s+(.*?))?(?:\s*\/\/\s*(.*))?\s*$`
(src/extension.js:237; with `valueRequired`, the variant of
src/extension.js:253 whose value group `\s+(.*?)` is mandatory).  The lazy
value group makes the value everything before the first `//` of the text
after the name; what follows the first `//` is the trailing comment.  The
returned value and comment are trimmed, as the caller trims both captures. -/
def parseDefineLine (valueRequired : Bool) (line : Chars) :
    Option (Chars × Chars × Chars) :=
  let l := dropWs line
  match l with
  | '#' :: r0 =>
    match matchLit (ofStr "define") (dropWs r0) with
    | none => none
    | some r1 =>
      match matchWs1 r1 with
      | none => none
      | some r2 =>
        match matchIdent r2 with
        | none => none
        | some (name, rest) =>
          let valid :=
            match rest with
            | [] => !valueRequired
            | c :: _ =>
              if valueRequired then isWsChar c
              else isWsChar c || startsWithChars (ofStr "//") rest
          if !valid then none
          else
            match indexOfSub rest (ofStr "//") with
            | some p =>
              some (name, trim (rest.take p), trim (rest.drop (p + 2)))
            | none => some (name, trim rest, [])
  | _ => none

/-- Does a line match `/^\s*\/\//`. -/
def isLineComment (l : Chars) : Bool := startsWithChars (ofStr "//") (dropWs l)

/-- Does a line match `/\*\/\s*$/`. -/
def endsBlockComment (l : Chars) : Bool := endsWithChars (ofStr "*/") (trimRight l)

/-- Does a line match `/^\s*\/\*/`. -/
def startsBlockComment (l : Chars) : Bool := startsWithChars (ofStr "/*") (dropWs l)

/-- `lines[j].replace(/^\s*\/\//, '').trim()` of src/extension.js:216. -/
def stripLineCommentMarker (l : Chars) : Chars :=
  let d := dropWs l
  if startsWithChars (ofStr "//") d then trim (d.drop 2) else trim l

/-- `s.replace(/^\s*\*\s?/, '').trim()` of src/extension.js:231: drop leading
whitespace, one `*` and at most one further whitespace character, then trim. -/
def stripStarMarker (l : Chars) : Chars :=
  let d := dropWs l
  match d with
  | '*' :: c :: cs => if isWsChar c then trim cs else trim (c :: cs)
  | '*' :: [] => []
  | _ => trim l

/-- `block.join('\n').replace(/^\s*\/\*/, '')` (src/extension.js:227-228): the
anchor `^` is the start of the first block line. -/
def stripBlockOpen (joined : Chars) : Chars :=
  let d := dropWsNL joined
  if startsWithChars (ofStr "/*") d then d.drop 2 else joined

/-- `.replace(/\*\/\s*$/, '')` (src/extension.js:229): remove the last `*/`
that is followed only by whitespace. -/
def stripBlockClose (joined : Chars) : Chars :=
  let r := dropWsNL joined.reverse
  match r with
  | '/' :: '*' :: rest => rest.reverse
  | _ => joined

/-- Join a list of lines with `\n`. -/
def joinNL (ls : List Chars) : Chars :=
  match ls with
  | [] => []
  | l :: rest => rest.foldl (fun acc x => acc ++ '\n' :: x) l

/-- Split on `\n`. -/
def splitNL (l : Chars) : List Chars :=
  let p := l.foldr
    (fun c (acc : List Chars × Chars) =>
      if c = '\n' then (acc.2 :: acc.1, []) else (acc.1, c :: acc.2))
    ([], [])
  p.2 :: p.1

/-- Collect the block-comment lines walking upward from index `j` until a
line matching `^\s*\/\*` is met (src/extension.js:220-226); `fuel` bounds the
walk by the line count. -/
def collectBlockUp (lines : List Chars) (j : Nat) (fuel : Nat) : List Chars :=
  match fuel with
  | 0 => [lines.getD j []]
  | fuel' + 1 =>
    let cur := lines.getD j []
    if startsBlockComment cur then [cur]
    else
      match j with
      | 0 => [cur]
      | j' + 1 => collectBlockUp lines j' fuel' ++ [cur]

/-- Skip blank lines upward (the first loop of src/extension.js:213-214).
Returns the index of the first non-blank line at or below `j`, or `none`. -/
def skipBlankUp (lines : List Chars) (j : Nat) (fuel : Nat) : Option Nat :=
  match fuel with
  | 0 => if isBlank (lines.getD j []) then none else some j
  | fuel' + 1 =>
    if isBlank (lines.getD j []) then
      match j with
      | 0 => none
      | j' + 1 => skipBlankUp lines j' fuel'
    else some j

/-- Collect contiguous `//` lines upward (src/extension.js:215-218), oldest
first.  Returns the collected doc lines and the index just above them
(or `none` when the walk ran off the top). -/
def collectSlashUp (lines : List Chars) (j : Nat) (fuel : Nat) :
    List Chars × Option Nat :=
  match fuel with
  | 0 =>
    if isLineComment (lines.getD j []) then ([stripLineCommentMarker (lines.getD j [])], none)
    else ([], some j)
  | fuel' + 1 =>
    if isLineComment (lines.getD j []) then
      match j with
      | 0 => ([stripLineCommentMarker (lines.getD j [])], none)
      | j' + 1 =>
        let (rest, top) := collectSlashUp lines j' fuel'
        (rest ++ [stripLineCommentMarker (lines.getD j [])], top)
    else ([], some j)

/-- `collectPrecedingComment` (src/extension.js:211-234): skip blank lines
upward, consume contiguous `//` lines, then a single preceding
`/* ... */` block; the result is the assembled doc-line list joined with
`\n`. -/
def collectPrecedingComment (lines : List Chars) (fromIndex : Option Nat) :
    String :=
  match fromIndex with
  | none => ""
  | some j0 =>
    match skipBlankUp lines j0 (j0 + 1) with
    | none => ""
    | some j1 =>
      let (slashDoc, above) := collectSlashUp lines j1 (j1 + 1)
      let blockDoc : List Chars :=
        match above with
        | none => []
        | some j2 =>
          if endsBlockComment (lines.getD j2 []) then
            let block := collectBlockUp lines j2 (j2 + 1)
            let cleaned := stripBlockClose (stripBlockOpen (joinNL block))
            (splitNL cleaned).map stripStarMarker
          else []
      toStr (joinNL (blockDoc ++ slashDoc))

/-- Assemble the doc string from the preceding-comment head and the inline
comment: `[docHead, inlineComment].filter(Boolean).join('\n')`
(src/extension.js:243). -/
def assembleDoc (docHead : String) (inline : String) : String :=
  if docHead = "" then inline
  else if inline = "" then docHead
  else docHead ++ "\n" ++ inline

/-- The first pass of `extractMacrosWithComments` (src/extension.js:236-246). -/
def extractMacrosPass1 (lines : List Chars) : List MacroDef :=
  (lines.enum.filterMap
    (fun p =>
      match parseDefineLine false p.2 with
      | some (name, value, inline) =>
        let docHead := collectPrecedingComment lines
          (if p.1 = 0 then none else some (p.1 - 1))
        some ⟨toStr name, toStr value, p.1, assembleDoc docHead (toStr inline)⟩
      | none => none))

/-- Match `^\s*#\s*ifndef\s+([A-Za-z_][A-Za-z0-9_]*)\s*$`
(src/extension.js:248). -/
def matchIfndef (line : Chars) : Option Chars :=
  match dropWs line with
  | '#' :: r0 =>
    match matchLit (ofStr "ifndef") (dropWs r0) with
    | none => none
    | some r1 =>
      match matchWs1 r1 with
      | none => none
      | some r2 =>
        match matchIdent r2 with
        | some (name, rest) => if isBlank rest then some name else none
        | none => none
  | _ => none

/-- Search `lines[k]` for `k` in `[i+1, min(len, i+16))` for a `#define` of
`name` (src/extension.js:252-260); the value group of that regex is
mandatory. -/
def findGuardDefine (lines : List Chars) (i : Nat) (name : Chars) :
    Option (Nat × Chars × Chars) :=
  let stop := min lines.length (i + 16)
  (List.range' (i + 1) (stop - (i + 1))).findSome?
    (fun k =>
      match parseDefineLine true (lines.getD k []) with
      | some (n, value, inline) =>
        if n = name then some (k, value, inline) else none
      | none => none)

/-- The `#ifndef` guard pass of `extractMacrosWithComments`
(src/extension.js:247-267). -/
def extractMacrosPass2 (lines : List Chars) : List MacroDef :=
  (lines.enum.filterMap
    (fun p =>
      match matchIfndef p.2 with
      | some name =>
        match findGuardDefine lines p.1 name with
        | some (defLine, value, inline) =>
          let docHead := collectPrecedingComment lines
            (if p.1 = 0 then none else some (p.1 - 1))
          some (⟨toStr name, toStr value, defLine, assembleDoc docHead (toStr inline)⟩ : MacroDef)
        | none => none
      | none => none))

/-- `extractMacrosWithComments` (src/extension.js:208-269). -/
def extractMacrosWithComments (lines : List Chars) : List MacroDef :=
  extractMacrosPass1 lines ++ extractMacrosPass2 lines

/-- The corpus-scan merge for one macro record (src/extension.js:1117-1126):
an existing entry is overwritten only when the incoming doc string is
non-empty and strictly longer than the existing one. -/
def macroMergeCorpus (idx : List (String × MacroEntry)) (uri : String)
    (d : MacroDef) : List (String × MacroEntry) :=
  match idx.lookup d.name with
  | none => alistSet idx d.name ⟨d.value, d.doc, uri, d.line⟩
  | some e =>
    if d.doc ≠ "" && (e.doc = "" || e.doc.length < d.doc.length) then
      alistSet idx d.name ⟨d.value, d.doc, uri, d.line⟩
    else idx

/-- The live-document merge for one macro record (src/extension.js:2038-2048):
additionally, an entry produced by the same document is always replaced. -/
def macroMergeDoc (idx : List (String × MacroEntry)) (docUri : String)
    (d : MacroDef) : List (String × MacroEntry) :=
  match idx.lookup d.name with
  | none => alistSet idx d.name ⟨d.value, d.doc, docUri, d.line⟩
  | some e =>
    if docUri = e.uri || (d.doc ≠ "" && (e.doc = "" || e.doc.length < d.doc.length)) then
      alistSet idx d.name ⟨d.value, d.doc, docUri, d.line⟩
    else idx

/-- Ingest one file's macros into the macro index, as the corpus scan does
(src/extension.js:1116-1127). -/
def ingestFileMacros (idx : List (String × MacroEntry)) (uri : String)
    (lines : List Chars) : List (String × MacroEntry) :=
  (extractMacrosWithComments lines).foldl (fun i d => macroMergeCorpus i uri d) idx

end Azsl

namespace Azsl

/-! ## The type alternation of the declaration regexes

Several regexes of the source share an ordered alternation of type patterns,
e.g. `float(?:[1-4](?:x[1-4])?)?|real(?:[1-4](?:x[1-4])?)?|int(?:[1-4])?|
uint(?:[1-4])?|bool|half|double|matrix|Texture\w*|Sampler\w*|[A-Z][A-Za-z0-9_]*`
(src/extension.js:1400, 3543, 3818, ...).  Each alternative is modelled as a
token producing its possible matches in the backtracking order of the regex
engine (greedy option first). -/

inductive TypeTok where
  | vecMat : String → TypeTok
  | vecOnly : String → TypeTok
  | litTok : String → TypeTok
  | matDims : String → TypeTok
  | wordStar : String → TypeTok
  | pascal : TypeTok

/-- The class `[1-4]`. -/
def isDimChar (c : Char) : Bool := '1' ≤ c && c ≤ '4'

/-- Candidate matches of one alternative at a position, greedy first: each is
the matched type text and the remainder. -/
def typeTokCands (t : TypeTok) (l : Chars) : List (Chars × Chars) :=
  match t with
  | .vecMat base =>
    match matchLit (ofStr base) l with
    | none => []
    | some r =>
      (match r with
       | d :: 'x' :: e :: r' =>
         if isDimChar d && isDimChar e then [(ofStr base ++ [d, 'x', e], r')] else []
       | _ => []) ++
      (match r with
       | d :: r' => if isDimChar d then [(ofStr base ++ [d], r')] else []
       | _ => []) ++
      [(ofStr base, r)]
  | .vecOnly base =>
    match matchLit (ofStr base) l with
    | none => []
    | some r =>
      (match r with
       | d :: r' => if isDimChar d then [(ofStr base ++ [d], r')] else []
       | _ => []) ++
      [(ofStr base, r)]
  | .litTok base =>
    match matchLit (ofStr base) l with
    | none => []
    | some r => [(ofStr base, r)]
  | .matDims base =>
    match matchLit (ofStr base) l with
    | none => []
    | some r =>
      (match r with
       | d :: 'x' :: e :: r' =>
         if isDimChar d && isDimChar e then [(ofStr base ++ [d, 'x', e], r')] else []
       | _ => []) ++
      [(ofStr base, r)]
  | .wordStar base =>
    match matchLit (ofStr base) l with
    | none => []
    | some r =>
      let (w, r') := takeWord r
      [(ofStr base ++ w, r')]
  | .pascal =>
    match l with
    | c :: cs =>
      if isUpperAlpha c then
        let (w, r) := takeWord cs
        [(c :: w, r)]
      else []
    | [] => []

/-- All candidates of an ordered alternation. -/
def typeAltCands (toks : List TypeTok) (l : Chars) : List (Chars × Chars) :=
  toks.flatMap (typeTokCands · l)

/-- First candidate on which the continuation succeeds (regex backtracking). -/
def firstSome {α β : Type} (cands : List α) (k : α → Option β) : Option β :=
  match cands with
  | [] => none
  | c :: cs =>
    match k c with
    | some b => some b
    | none => firstSome cs k

/-- The alternation of the variable-declaration regex of
`getVariableTypeAtPosition` (src/extension.js:1400). -/
def altsVarPos : List TypeTok :=
  [.vecMat "float", .vecMat "real", .vecOnly "int", .vecOnly "uint",
   .litTok "bool", .litTok "half", .litTok "double", .litTok "matrix",
   .wordStar "Texture", .wordStar "Sampler", .wordStar "RWTexture", .pascal]

/-- The alternation of the variable-declaration regexes of `validateDocument`
(src/extension.js:3800, 3818). -/
def altsVarValidate : List TypeTok :=
  [.vecMat "float", .vecMat "real", .vecOnly "int", .vecOnly "uint",
   .litTok "bool", .litTok "half", .litTok "double", .litTok "matrix",
   .wordStar "Texture", .wordStar "Sampler", .pascal]

/-- The alternation of the function-signature and parameter regexes
(src/extension.js:1330, 1336, 3543, 3552, 3765). -/
def altsFunc : List TypeTok :=
  [.vecMat "float", .vecMat "real", .vecOnly "int", .vecOnly "uint",
   .litTok "bool", .litTok "half", .litTok "double", .matDims "matrix",
   .wordStar "Texture", .wordStar "Sampler", .pascal]

/-- `\s*[;=]`. -/
def termSemiEq (r : Chars) : Bool :=
  match dropWs r with
  | c :: _ => c = ';' || c = '='
  | [] => false

/-- `\s*(?:[,:)]|$)`. -/
def termParamEnd (r : Chars) : Bool :=
  match dropWs r with
  | c :: _ => c = ',' || c = ':' || c = ')'
  | [] => true

/-- `\s*\(`. -/
def termOpenParen (r : Chars) : Bool :=
  match dropWs r with
  | '(' :: _ => true
  | _ => false

/-- No terminator (the bare `\b(TYPE)\s+(NAME)` re-match of
src/extension.js:1269, 3554, 3768). -/
def termAny (_ : Chars) : Bool := true

/-- `(TYPE)\s+(NAME)` followed by the terminator, tried at one position. -/
def matchTypeNameAt (alts : List TypeTok) (term : Chars → Bool) (l : Chars) :
    Option (String × String) :=
  firstSome (typeAltCands alts l)
    (fun p =>
      match matchWs1 p.2 with
      | none => none
      | some r2 =>
        match matchIdent r2 with
        | none => none
        | some (nm, r3) => if term r3 then some (toStr p.1, toStr nm) else none)

/-- Leftmost match of `/\b(TYPE)\s+(NAME)<term>/`: scan the positions with a
word boundary before them.  `prev` is the character before the current
position. -/
def scanTypeName (alts : List TypeTok) (term : Chars → Bool) :
    Option Char → Chars → Option (String × String)
  | _, [] => none
  | prev, c :: cs =>
    let boundaryOk :=
      match prev with
      | none => true
      | some pc => !isWordChar pc
    match (if boundaryOk then matchTypeNameAt alts term (c :: cs) else none) with
    | some x => some x
    | none => scanTypeName alts term (some c) cs

/-- The variable-declaration regex search on one line
(src/extension.js:1400, 3818): `/\b(TYPE)\s+([A-Za-z_][A-Za-z0-9_]*)\s*[;=]/`. -/
def varDeclSearch (alts : List TypeTok) (line : Chars) : Option (String × String) :=
  scanTypeName alts termSemiEq none line

/-- The `const` variable-declaration regex of src/extension.js:3800:
`/\bconst\s+(TYPE)\s+([A-Za-z_][A-Za-z0-9_]*)\s*[;=]/`: scan for `const` at a
word boundary, then the type-name pattern. -/
def constDeclSearchFrom : Option Char → Chars → Option (String × String)
  | _, [] => none
  | prev, c :: cs =>
    let boundaryOk :=
      match prev with
      | none => true
      | some pc => !isWordChar pc
    let here : Option (String × String) :=
      if boundaryOk then
        match matchLit (ofStr "const") (c :: cs) with
        | some r =>
          match matchWs1 r with
          | some r2 => matchTypeNameAt altsVarValidate termSemiEq r2
          | none => none
        | none => none
      else none
    match here with
    | some x => some x
    | none => constDeclSearchFrom (some c) cs

def constDeclSearch (line : Chars) : Option (String × String) :=
  constDeclSearchFrom none line

/-! ## Scoped variable declarations and the best-declaration selection
(claim C5) -/

/-- A recorded variable declaration (src/extension.js:1409):
type, declaration line and the brace depth at that line. -/
structure VarDecl where
  type : String
  line : Nat
  braceDepth : Int
  deriving DecidableEq, Repr

/-- The selection loop shared by `getVariableTypeAtPosition`
(src/extension.js:1430-1441) and `getVariableTypeAtLine`
(src/extension.js:3510-3521): among the declarations with
`line ≤ lineNum` and `braceDepth ≤ target`, keep the one with the greatest
brace depth, ties broken by the latest line.  `bestBraceDepth` starts at `-1`
exactly as in the source. -/
def selectStep (lineNum : Nat) (target : Int) (st : Option VarDecl × Int)
    (d : VarDecl) : Option VarDecl × Int :=
  if d.line ≤ lineNum && d.braceDepth ≤ target then
    if d.braceDepth > st.2 then (some d, d.braceDepth)
    else if d.braceDepth = st.2 &&
        ((d.line : Int) > (match st.1 with | some b => (b.line : Int) | none => -1)) then
      (some d, st.2)
    else st
  else st

def selectBest (decls : List VarDecl) (lineNum : Nat) (target : Int) :
    Option VarDecl :=
  (decls.foldl (selectStep lineNum target) (none, -1)).1

/-- src/extension.js:1384: the atom types known to `getVariableTypeAtPosition`. -/
def atomTypesPos : List String :=
  ["Surface", "LightingData", "DirectionalLight", "SimplePointLight",
   "PointLight", "SimpleSpotLight", "DiskLight", "ForwardPassOutput",
   "VertexShaderOutput", "VertexShaderInput"]

/-- src/extension.js:1385: the texture types known to
`getVariableTypeAtPosition`. -/
def textureTypesList : List String :=
  ["Texture2D", "Texture3D", "TextureCube", "Texture2DArray", "RWTexture2D",
   "RWTexture3D", "Texture1D", "Texture2DMS", "RWTexture1D"]

/-- The declaration-collection pass of `getVariableTypeAtPosition`
(src/extension.js:1392-1416): per line, update the raw brace depth, match the
variable-declaration regex, record the declaration with its scope, and record
the unscoped fallback type when the type is a known atom / texture / indexed
type. -/
def collectVarDecls (structIndexKeys : List String)
    (structMembers : List (String × List String)) (lines : List Chars) :
    List (String × List VarDecl) × List (String × String) :=
  let final := lines.enum.foldl
    (fun (st : Int × List (String × List VarDecl) × List (String × String)) p =>
      let (depth, decls, vtypes) := st
      let (i, line) := p
      let depth2 := depth + braceDelta line
      match varDeclSearch altsVarPos line with
      | some (ty, nm) =>
        let cur := (decls.lookup nm).getD []
        let decls2 := alistSet decls nm (cur ++ [⟨ty, i, depth2⟩])
        let vtypes2 :=
          if atomTypesPos.contains ty || textureTypesList.contains ty ||
              structIndexKeys.contains ty || alistHas structMembers ty then
            alistSet vtypes nm ty
          else vtypes
        (depth2, decls2, vtypes2)
      | none => (depth2, decls, vtypes))
    (0, [], [])
  (final.2.1, final.2.2)

end Azsl

namespace Azsl

/-- `getVariableTypeAtPosition(document, varName, lineNum)`
(src/extension.js:1381-1453).  The process-wide `structIndex` /
`structMembers` tables consulted at src/extension.js:1412 are passed in.
After collecting every declaration with its scope, the query picks the best
declaration with `line ≤ lineNum` and `braceDepth ≤` the brace depth of the
query line; when none qualifies it falls back to the unscoped
`variableTypes` map. -/
def getVariableTypeAtPosition (structIndexKeys : List String)
    (structMembers : List (String × List String)) (lines : List Chars)
    (varName : String) (lineNum : Nat) : Option String :=
  let (decls, vtypes) := collectVarDecls structIndexKeys structMembers lines
  let viaScope : Option String :=
    if alistHas decls varName then
      let target := ((lines.take (lineNum + 1)).map braceDelta).sum
      match selectBest ((decls.lookup varName).getD []) lineNum target with
      | some d => some d.type
      | none => none
    else none
  match viaScope with
  | some t => some t
  | none => vtypes.lookup varName

/-- The brace depth computed for the query line by
src/extension.js:1422-1427. -/
def targetBraceDepth (lines : List Chars) (lineNum : Nat) : Int :=
  ((lines.take (lineNum + 1)).map braceDelta).sum

/-- The helper `getVariableTypeAtLine(varName, lineNum, currentBraceDepth)` of
`validateDocument` (src/extension.js:3499-3533), over the
`variableDeclarations` / `variableTypes` maps it closes over. -/
def getVariableTypeAtLine (variableDeclarations : List (String × List VarDecl))
    (variableTypes : List (String × String)) (varName : String) (lineNum : Nat)
    (currentBraceDepth : Int) : Option String :=
  if alistHas variableDeclarations varName then
    match selectBest ((variableDeclarations.lookup varName).getD []) lineNum
        currentBraceDepth with
    | some d => some d.type
    | none => variableTypes.lookup varName
  else variableTypes.lookup varName

/-! ## Function scopes (src/extension.js:1243-1378 and 3534-3601) -/

/-- A function scope: signature line, return type, first parameter type and
(once the closing brace is seen) end line. -/
structure FuncScope where
  startLine : Nat
  returnType : String
  firstParamType : Option String
  endLine : Option Nat
  deriving DecidableEq, Repr

/-- The anchored function-signature regex
`/^\s*(TYPE)\s+([A-Za-z_][A-Za-z0-9_]*)\s*\(/` (src/extension.js:1330, 3543). -/
def matchFuncSig (line : Chars) : Option (String × String) :=
  matchTypeNameAt altsFunc termOpenParen (dropWs line)

/-- The first-parameter extraction of src/extension.js:1336-1341 (also
3552-3557): the leftmost `/\b(TYPE)\s+(NAME)\s*(?:[,:)]|$)/` match, re-matched
without the terminator to take its type capture. -/
def firstParamType (line : Chars) : Option String :=
  match scanTypeName altsFunc termParamEnd none line with
  | some (ty, _) => some ty
  | none => none

/-- State of the function-scope pass. -/
structure ScopeScanState where
  braceDepth : Int
  curStart : Option Nat
  curRet : Option String
  curParam : Option String
  scopes : List FuncScope
  deriving Repr

/-- Set the end line of the scope whose `startLine` is the given one
(`functionScopes.find(...)`, src/extension.js:1360-1363 / 3591-3596). -/
def closeScope (scopes : List FuncScope) (start : Nat) (i : Nat) :
    List FuncScope :=
  let rec go : List FuncScope → List FuncScope
    | [] => []
    | s :: rest =>
      if s.startLine = start then { s with endLine := some i } :: rest
      else s :: go rest
  go scopes

/-- One line of the function-scope pass (src/extension.js:1322-1367 and
3540-3600).  `guardComments` reproduces the extra
`!line.trim().startsWith('//')` test of the `validateDocument` version
(src/extension.js:3544) that the src/extension.js:1331 version lacks.  The
first-parameter capture is only overwritten on a successful match, as in the
source. -/
def scopeScanLine (guardComments : Bool) (st : ScopeScanState) (p : Nat × Chars) :
    ScopeScanState :=
  let (i, line) := p
  let sigOk :=
    match matchFuncSig line with
    | some _ => !(guardComments && startsWithChars (ofStr "//") (trim line))
    | none => false
  let st1 :=
    if sigOk then
      match matchFuncSig line with
      | some (ret, _) =>
        let newParam :=
          match firstParamType line with
          | some t => some t
          | none => st.curParam
        { st with
          curStart := some i
          curRet := some ret
          curParam := newParam }
      | none => st
    else st
  let prev := st1.braceDepth
  let cur := prev + braceDelta line
  let st2 := { st1 with braceDepth := cur }
  let st3 :=
    match st2.curStart with
    | some s =>
      if prev = 0 && cur > 0 && !(st2.scopes.any (fun sc => sc.startLine = s)) then
        { st2 with scopes := st2.scopes ++
            [(⟨s, st2.curRet.getD "", st2.curParam, none⟩ : FuncScope)] }
      else st2
    | none => st2
  match st3.curStart with
  | some s =>
    if prev = 1 && cur = 0 then
      { st3 with
        scopes := closeScope st3.scopes s i
        curStart := none
        curRet := none
        curParam := none }
    else st3
  | none => st3

/-- Compute the function scopes of a document
(src/extension.js:1322-1368 without the comment guard, 3540-3601 with it). -/
def computeFunctionScopes (guardComments : Bool) (lines : List Chars) :
    List FuncScope :=
  (lines.enum.foldl (scopeScanLine guardComments) ⟨0, none, none, none, []⟩).scopes

/-- Innermost-scope search from the end of the scope list
(src/extension.js:1371-1376, 3733-3740): return type of the scope containing
the line. -/
def scopeReturnTypeAt (scopes : List FuncScope) (lineNum : Nat) : Option String :=
  (scopes.reverse.find?
    (fun sc => sc.startLine ≤ lineNum &&
      (match sc.endLine with
       | none => true
       | some e => lineNum ≤ e))).map FuncScope.returnType

/-- As `scopeReturnTypeAt` but yielding the first-parameter type
(src/extension.js:1371-1376 of the parameter variant, 3747-3754). -/
def scopeParamTypeAt (scopes : List FuncScope) (lineNum : Nat) : Option String :=
  match scopes.reverse.find?
    (fun sc => sc.startLine ≤ lineNum &&
      (match sc.endLine with
       | none => true
       | some e => lineNum ≤ e)) with
  | some sc => sc.firstParamType
  | none => none

/-! ## Swizzles (claim C2) -/

/-- `isVectorType` (src/extension.js:1456-1459):
`/^(float|int|uint|bool|real|half)[2-4]$/`. -/
def isVectorType (type : String) : Bool :=
  ["float", "int", "uint", "bool", "real", "half"].any
    (fun base =>
      match matchLit (ofStr base) (ofStr type) with
      | some [d] => '2' ≤ d && d ≤ '4'
      | _ => false)

/-- The positional component alphabet `['x','y','z','w']`
(src/extension.js:1469). -/
def posComponents : List Char := ['x', 'y', 'z', 'w']

/-- The colour component alphabet `['r','g','b','a']`
(src/extension.js:1470). -/
def colorComponents : List Char := ['r', 'g', 'b', 'a']

/-- Lexicographic code-point comparison of character lists, the order
`Array.prototype.sort()` uses on ASCII strings. -/
def charListLe : Chars → Chars → Bool
  | [], _ => true
  | _ :: _, [] => false
  | a :: as, b :: bs =>
    if a.toNat < b.toNat then true
    else if b.toNat < a.toNat then false
    else charListLe as bs

/-- Insertion of a string into a sorted list of strings. -/
def insertSorted (x : String) : List String → List String
  | [] => [x]
  | y :: ys =>
    if charListLe (ofStr x) (ofStr y) then x :: y :: ys
    else y :: insertSorted x ys

/-- The ascending sort of `Array.prototype.sort()` on distinct strings,
written as an insertion sort so it evaluates structurally. -/
def sortStrings (l : List String) : List String := l.foldr insertSorted []

/-- `getSwizzleProperties` (src/extension.js:1462-1515): read the dimension
from the trailing digit; add all singles, all pairs of distinct indices, all
triples of pairwise-distinct indices (dimension ≥ 3), and all quadruples of
pairwise-distinct indices (dimension 4), over both alphabets; return the
set sorted. -/
def getSwizzleProperties (type : String) : List String :=
  let cs := ofStr type
  match cs.getLast? with
  | none => []
  | some last =>
    if !isDigitChar last then []
    else
      let dim := last.toNat - '0'.toNat
      let idx := List.range dim
      let addAll := fun (props : List String) (news : List String) =>
        news.foldl setAdd props
      let singles :=
        idx.flatMap (fun i =>
          [toStr [posComponents.getD i ' '], toStr [colorComponents.getD i ' ']])
      let pairs :=
        idx.flatMap (fun i => idx.flatMap (fun j =>
          if i ≠ j then
            [toStr [posComponents.getD i ' ', posComponents.getD j ' '],
             toStr [colorComponents.getD i ' ', colorComponents.getD j ' ']]
          else []))
      let triples :=
        if dim ≥ 3 then
          idx.flatMap (fun i => idx.flatMap (fun j => idx.flatMap (fun k =>
            if i ≠ j && j ≠ k && i ≠ k then
              [toStr [posComponents.getD i ' ', posComponents.getD j ' ',
                      posComponents.getD k ' '],
               toStr [colorComponents.getD i ' ', colorComponents.getD j ' ',
                      colorComponents.getD k ' ']]
            else [])))
        else []
      let quads :=
        if dim = 4 then
          idx.flatMap (fun i => idx.flatMap (fun j => idx.flatMap (fun k =>
            idx.flatMap (fun l =>
              if i ≠ j && j ≠ k && k ≠ l && i ≠ k && i ≠ l && j ≠ l then
                [toStr [posComponents.getD i ' ', posComponents.getD j ' ',
                        posComponents.getD k ' ', posComponents.getD l ' '],
                 toStr [colorComponents.getD i ' ', colorComponents.getD j ' ',
                        colorComponents.getD k ' ', colorComponents.getD l ' ']]
              else []))))
        else []
      let props := addAll (addAll (addAll (addAll [] singles) pairs) triples) quads
      sortStrings props

/-- The swizzle-shape test of the validation sweep
(src/extension.js:4285, 4307): `/^[xyzwrgba]{1,4}$/`. -/
def isSwizzleShape (identifier : String) : Bool :=
  let cs := ofStr identifier
  1 ≤ cs.length && cs.length ≤ 4 &&
    cs.all (fun c => posComponents.contains c || colorComponents.contains c)

/-- The component index a swizzle character denotes: `x`/`r` ↦ 0, `y`/`g` ↦ 1,
`z`/`b` ↦ 2, `w`/`a` ↦ 3. -/
def componentIndex (c : Char) : Option Nat :=
  match posComponents.indexOf? c with
  | some i => some i
  | none => colorComponents.indexOf? c

/-- An accessor string uses pairwise-distinct component indices. -/
def distinctIndices (s : String) : Bool :=
  let idxs := (ofStr s).filterMap componentIndex
  idxs.Nodup && idxs.length = (ofStr s).length

end Azsl

namespace Azsl

/-! ## Expression typing (src/extension.js:1518-1608) -/

/-- The argument splitter of `extractFunctionCallArgs`
(src/extension.js:1535-1550): walk from after the opening parenthesis with a
parenthesis depth, splitting on top-level commas; every pushed argument is
trimmed; reaching the end with unbalanced parentheses yields `null`. -/
def splitCallArgs : Chars → Nat → Chars → List String → Option (List String)
  | [], _, _, _ => none
  | c :: cs, depth, cur, args =>
    if c = '(' then splitCallArgs cs (depth + 1) (cur ++ [c]) args
    else if c = ')' then
      if depth = 1 then some (args ++ [toStr (trim cur)])
      else splitCallArgs cs (depth - 1) (cur ++ [c]) args
    else if c = ',' && depth = 1 then
      splitCallArgs cs depth [] (args ++ [toStr (trim cur)])
    else splitCallArgs cs depth (cur ++ [c]) args

/-- Find every occurrence of `\bNAME\s*\(` and return the remainder after the
last one (the global-exec loop of src/extension.js:1519-1525). -/
def lastCallSiteFrom (funcName : Chars) : Option Char → Chars →
    Option Chars → Option Chars
  | _, [], acc => acc
  | prev, c :: cs, acc =>
    let boundaryOk :=
      match prev with
      | none => true
      | some pc => !isWordChar pc
    let here : Option Chars :=
      if boundaryOk then
        match matchLit funcName (c :: cs) with
        | some r =>
          match dropWs r with
          | '(' :: r' => some r'
          | _ => none
        | none => none
      else none
    match here with
    | some r => lastCallSiteFrom funcName (some c) cs (some r)
    | none => lastCallSiteFrom funcName (some c) cs acc

/-- `extractFunctionCallArgs(text, funcName)` (src/extension.js:1518-1551). -/
def extractFunctionCallArgs (text : Chars) (funcName : Chars) :
    Option (List String) :=
  match lastCallSiteFrom funcName none text none with
  | none => none
  | some rest => splitCallArgs rest 1 [] []

/-- Test `/\bmul\s*\(/` (src/extension.js:1560). -/
def hasMulCallFrom : Option Char → Chars → Bool
  | _, [] => false
  | prev, c :: cs =>
    let boundaryOk :=
      match prev with
      | none => true
      | some pc => !isWordChar pc
    let here :=
      if boundaryOk then
        match matchLit (ofStr "mul") (c :: cs) with
        | some r =>
          match dropWs r with
          | '(' :: _ => true
          | _ => false
        | none => false
      else false
    here || hasMulCallFrom (some c) cs

def hasMulCall (l : Chars) : Bool := hasMulCallFrom none l

/-- Leftmost match of `/(float|int|uint|bool|real|half)([2-4])\s*\(/`
(src/extension.js:1569, 1600, 4206); the regex carries no word boundary.
Returns the constructed type name (base plus digit). -/
def vectorCtorAt (l : Chars) : Option String :=
  ["float", "int", "uint", "bool", "real", "half"].findSome?
    (fun base =>
      match matchLit (ofStr base) l with
      | some (d :: r) =>
        if '2' ≤ d && d ≤ '4' then
          match dropWs r with
          | '(' :: _ => some (base ++ toStr [d])
          | _ => none
        else none
      | _ => none)

def vectorCtorSearch : Chars → Option String
  | [] => none
  | c :: cs =>
    match vectorCtorAt (c :: cs) with
    | some t => some t
    | none => vectorCtorSearch cs

/-- `getExpressionType(document, expression, lineNum)`
(src/extension.js:1554-1608).  The global `structIndex` / `structMembers`
tables and the document lines are passed in.  The member-access probe of
src/extension.js:1585-1595 computes values but never changes the result, so
it is omitted. -/
def getExpressionType (structIndexKeys : List String)
    (structMembers : List (String × List String)) (docLines : List Chars)
    (expression : Chars) (lineNum : Nat) : Option String :=
  if expression.isEmpty then none
  else
    let trimmedExpr := trim expression
    let viaMul : Option String :=
      if hasMulCall trimmedExpr then
        match extractFunctionCallArgs trimmedExpr (ofStr "mul") with
        | some args =>
          if 2 ≤ args.length then
            let secondArg := trim (ofStr (args.getD 1 ""))
            match vectorCtorSearch secondArg with
            | some t => some t
            | none =>
              match matchIdent secondArg with
              | some (v, _) =>
                match getVariableTypeAtPosition structIndexKeys structMembers
                    docLines (toStr v) lineNum with
                | some vt => if isVectorType vt then some vt else none
                | none => none
              | none => none
          else none
        | none => none
      else none
    match viaMul with
    | some t => some t
    | none => vectorCtorSearch trimmedExpr

/-! ## The member-access branch of the validation sweep (claims C2, C7)

src/extension.js:4032-4510: the identifier loop of `validateDocument`.  The
environment collects the state the loop closes over. -/

/-- src/extension.js:3410-3414: the `atomTypes` set of `validateDocument`. -/
def atomTypesValidate : List String :=
  ["ForwardPassOutput", "Surface", "LightingData", "DirectionalLight",
   "SimplePointLight", "PointLight", "SimpleSpotLight", "DiskLight",
   "ViewSrg", "SceneSrg", "ObjectSrg"]

/-- src/extension.js:3211-3230: the built-in identifiers never flagged. -/
def builtinIdentifiersList : List String :=
  ["max", "min", "saturate", "clamp", "smoothstep", "normalize", "length",
   "dot", "cross", "pow", "floor", "ceil", "frac", "lerp", "step", "ddx",
   "ddy", "abs", "mul", "round", "sin", "cos", "sqrt", "fmod",
   "Sample", "SampleCmp", "GetDimensions",
   "float", "float2", "float3", "float4", "float2x2", "float3x3", "float4x4",
   "real", "real2", "real3", "real4", "real3x3", "real3x4", "real4x4",
   "int", "int2", "int3", "int4", "uint", "uint2", "uint3", "uint4", "bool",
   "half", "double", "matrix", "void",
   "Texture2D", "Texture3D", "TextureCube", "Texture2DArray", "RWTexture2D",
   "Sampler", "SamplerState", "SamplerComparisonState",
   "if", "else", "for", "while", "do", "switch", "case", "default", "break",
   "continue", "return", "true", "false",
   "struct", "cbuffer", "tbuffer", "namespace", "class", "static", "const",
   "groupshared", "uniform", "volatile", "option", "noperspective", "inline",
   "POSITION", "NORMAL", "TEXCOORD0", "TEXCOORD1", "TEXCOORD2", "TEXCOORD3",
   "TEXCOORD4", "TEXCOORD5", "TEXCOORD6", "UV0", "UV1", "UV2", "UV3",
   "SV_Position", "SV_Target", "SV_Target0", "SV_InstanceID", "SV_VertexID",
   "COLOR0", "COLOR1", "TANGENT", "BINORMAL"]

/-- src/extension.js:4379: the texture methods accepted on `Texture*` types. -/
def textureMethodsList : List String :=
  ["Sample", "SampleLevel", "SampleBias", "SampleGrad", "SampleCmp",
   "SampleCmpLevelZero", "Load", "GetDimensions", "Gather", "GatherRed",
   "GatherGreen", "GatherBlue", "GatherAlpha", "GatherCmp", "GatherCmpRed"]

/-- src/extension.js:4465-4468: the always-accepted Atom function names. -/
def atomFunctionsList : List String :=
  ["GetObjectToWorldMatrix", "GetObjectToWorldMatrixInverseTranspose",
   "ApplyIblForward", "ComputeShadowIndex", "EncodeNormalSignedOctahedron",
   "GetVisibility", "Init", "FinalizeLighting", "CalculateRoughnessA",
   "SetAlbedoAndSpecularF0", "GetSpecularF0", "GetDefaultNormal"]

/-- The state the identifier loop of `validateDocument` closes over. -/
structure ValEnv where
  declarations : List String
  pascalCaseTypes : List String
  knownStructs : List String
  structIndexKeys : List String
  structMembers : List (String × List String)
  srgMembers : List (String × List String)
  srgMemberIndexKeys : List String
  atomTypeMembers : List (String × List String)
  variableTypes : List (String × String)
  variableDeclarations : List (String × List VarDecl)
  functionScopes : List FuncScope
  docLines : List Chars
  deriving Repr

/-- Outcome of checking one identifier occurrence: accepted silently
(`continue` without a push), a pushed diagnostic, or fall-through into the
undeclared-identifier logic of src/extension.js:4405-4509. -/
inductive CheckOutcome where
  | skip
  | diag (message : String)
  | undeclaredPath
  deriving DecidableEq, Repr

/-- The single-quote character, `\x27`, used inside diagnostic messages. -/
def sq : String := "\x27"

/-- `/([A-Za-z_][A-Za-z0-9_]*)::\s*$/` on the trimmed before-text
(src/extension.js:4060): leftmost identifier directly followed by `::` and
then only whitespace. -/
def matchSrgBeforeMember : Chars → Option String
  | [] => none
  | c :: cs =>
    let here : Option String :=
      match matchIdent (c :: cs) with
      | some (name, r) =>
        match matchLit (ofStr "::") r with
        | some r2 => if isBlank r2 then some (toStr name) else none
        | none => none
      | none => none
    match here with
    | some x => some x
    | none => matchSrgBeforeMember cs

/-- `/([A-Za-z_][A-Za-z0-9_]*)::([A-Za-z_][A-Za-z0-9_]*)\s*\.(?![^.]*\.)/`
(src/extension.js:4099): the last `A::B.` pattern, i.e. the leftmost one
after whose dot no further dot occurs. -/
def matchLastSrgMemberDot : Chars → Option (String × String)
  | [] => none
  | c :: cs =>
    let here : Option (String × String) :=
      match matchIdent (c :: cs) with
      | some (a, r) =>
        match matchLit (ofStr "::") r with
        | some r2 =>
          match matchIdent r2 with
          | some (b, r3) =>
            match dropWs r3 with
            | '.' :: r4 =>
              if containsChar r4 '.' then none else some (toStr a, toStr b)
            | _ => none
          | none => none
        | none => none
      | none => none
    match here with
    | some x => some x
    | none => matchLastSrgMemberDot cs

/-- The last match of the global `/([A-Za-z_][A-Za-z0-9_]*)\s*\./`
(src/extension.js:4117-4123): scanning resumes after each match. -/
def lastVarDotGo : Nat → Chars → Option String → Option String
  | 0, _, acc => acc
  | _, [], acc => acc
  | fuel + 1, c :: cs, acc =>
    let here : Option (String × Chars) :=
      match matchIdent (c :: cs) with
      | some (name, r) =>
        match dropWs r with
        | '.' :: r2 => some (toStr name, r2)
        | _ => none
      | none => none
    match here with
    | some (name, rest) => lastVarDotGo fuel rest (some name)
    | none => lastVarDotGo fuel cs acc

/-- Each scanning step consumes at least one character, so fuel equal to the
length of the text never runs out. -/
def lastVarDot (l : Chars) : Option String := lastVarDotGo l.length l none

/-- Leftmost match of `/([A-Za-z_][A-Za-z0-9_]*)\s*\([^)]*\)\s*\./`
(src/extension.js:4197), returning the function name. -/
def matchFuncCallDot : Chars → Option String
  | [] => none
  | c :: cs =>
    let here : Option String :=
      match matchIdent (c :: cs) with
      | some (name, r) =>
        match dropWs r with
        | '(' :: r2 =>
          match indexOfSub r2 [')'] with
          | some k =>
            match dropWs (r2.drop (k + 1)) with
            | '.' :: _ => some (toStr name)
            | _ => none
          | none => none
        | _ => none
      | none => none
    match here with
    | some x => some x
    | none => matchFuncCallDot cs

/-- The SRG-member existence test of src/extension.js:4138-4142 (recomputed
identically at src/extension.js:4278-4282). -/
def srgMemberExists (env : ValEnv) (srgName memberName : String) : Bool :=
  let fullName := srgName ++ "::" ++ memberName
  let m0 := env.declarations.contains fullName ||
    env.srgMemberIndexKeys.contains fullName
  if !m0 && alistHas env.srgMembers srgName then
    ((env.srgMembers.lookup srgName).getD []).contains memberName
  else m0

/-- The "SRG is known" test of src/extension.js:4086 and 4146. -/
def srgIsKnown (env : ValEnv) (srgName : String) : Bool :=
  atomTypesValidate.contains srgName || env.declarations.contains srgName ||
    alistHas env.srgMembers srgName

/-- src/extension.js:4253-4262: look for the variable among the members of
some SRG and take the recorded type of the qualified name; entries without a
recorded type are passed over. -/
def srgScanForVar (env : ValEnv) (varName : String) : Option String :=
  env.srgMembers.findSome?
    (fun p =>
      if p.2.contains varName then env.variableTypes.lookup (p.1 ++ "::" ++ varName)
      else none)

/-- The type dispatch on a resolved operand type (src/extension.js:4303-4392):
vector swizzle shapes are accepted; member sets of `atomTypeMembers`,
`structMembers` (backed by `structIndex` / `atomTypes`), `srgMembers` and the
texture methods are consulted in this order; anything else falls to the
closing `continue` of src/extension.js:4392. -/
def typeDispatch (env : ValEnv) (identifier : String) (t : String) :
    CheckOutcome :=
  if isVectorType t && isSwizzleShape identifier then .skip
  else if alistHas env.atomTypeMembers t then
    if ((env.atomTypeMembers.lookup t).getD []).contains identifier then .skip
    else .diag ("no member named " ++ sq ++ identifier ++ sq ++ " in type " ++
      sq ++ t ++ sq)
  else
    let viaStruct : Option CheckOutcome :=
      if env.structIndexKeys.contains t || alistHas env.structMembers t ||
          atomTypesValidate.contains t then
        if alistHas env.structMembers t then
          some (if ((env.structMembers.lookup t).getD []).contains identifier
            then .skip
            else .diag ("no member named " ++ sq ++ identifier ++ sq ++
              " in struct " ++ sq ++ t ++ sq))
        else if atomTypesValidate.contains t then
          some (.diag ("no member named " ++ sq ++ identifier ++ sq ++
            " in struct " ++ sq ++ t ++ sq ++ " (type found but members not indexed)"))
        else none
      else none
    match viaStruct with
    | some o => o
    | none =>
      if alistHas env.srgMembers t then
        if ((env.srgMembers.lookup t).getD []).contains identifier then .skip
        else .diag ("no member named " ++ sq ++ identifier ++ sq ++
          " in type " ++ sq ++ t ++ sq)
      else if startsWithChars (ofStr "Texture") (ofStr t) then
        if textureMethodsList.contains identifier then .skip
        else .diag ("no member named " ++ sq ++ identifier ++ sq ++
          " in type " ++ sq ++ t ++ sq ++ ". Valid methods: " ++
          String.intercalate ", " textureMethodsList)
      else .skip

/-- src/extension.js:4273-4301 followed by 4303-4403: the unknown-type swizzle
check for existing SRG members, then the dispatch on the resolved type, then
the fall-through decision. -/
def afterResolve (env : ValEnv) (identifier : String)
    (srgMM : Option (String × String)) (varM : Option String)
    (varType : Option String) : CheckOutcome :=
  let viaUnknownSrg : Option CheckOutcome :=
    match srgMM, varType with
    | some (srgName, memberName), none =>
      if srgMemberExists env srgName memberName then
        some (if !(isSwizzleShape identifier) then
            .diag ("invalid swizzle property " ++ sq ++ identifier ++ sq)
          else .skip)
      else none
    | _, _ => none
  match viaUnknownSrg with
  | some o => o
  | none =>
    match varType with
    | some t => typeDispatch env identifier t
    | none => if srgMM.isSome || varM.isSome then .skip else .undeclaredPath

/-- The member-access branch of the identifier loop
(src/extension.js:4056-4403), entered when the text before the identifier
contains a `.` or `::`. -/
def memberAccessBranch (env : ValEnv) (beforeMatch : Chars)
    (identifier : String) (i : Nat) (depth : Int) : CheckOutcome :=
  let beforeAccess := trim beforeMatch
  -- src/extension.js:4060-4096: the `SRG::` prefix directly before the identifier
  let viaSrgPrefix : Option CheckOutcome :=
    match matchSrgBeforeMember beforeAccess with
    | some srgName =>
      let fullSrgMember := srgName ++ "::" ++ identifier
      let memberFound :=
        if env.declarations.contains fullSrgMember then true
        else if alistHas env.srgMembers srgName then
          ((env.srgMembers.lookup srgName).getD []).contains identifier
        else env.srgMemberIndexKeys.contains fullSrgMember
      if memberFound then some .skip
      else if srgIsKnown env srgName then
        some (.diag ("no member named " ++ sq ++ identifier ++ sq ++
          " in SRG " ++ sq ++ srgName ++ sq))
      else none
    | none => none
  match viaSrgPrefix with
  | some o => o
  | none =>
    let srgMM := matchLastSrgMemberDot beforeAccess
    let expressionBeforeDot :=
      match lastIndexOfChar beforeAccess '.' with
      | some k => beforeAccess.take k
      | none => []
    let exprType0 :=
      if endsWithChars (ofStr ")") (trim expressionBeforeDot) then
        getExpressionType env.structIndexKeys env.structMembers env.docLines
          expressionBeforeDot i
      else none
    let varM :=
      if srgMM.isNone && exprType0.isNone then lastVarDot beforeAccess else none
    match srgMM with
    | some (srgName, memberName) =>
      if !(srgMemberExists env srgName memberName) && srgIsKnown env srgName then
        .diag ("no member named " ++ sq ++ memberName ++ sq ++ " in SRG " ++
          sq ++ srgName ++ sq)
      else
        -- src/extension.js:4162-4183: the type recorded for the qualified name
        -- overrides; the `.type` probe on `srgMemberIndex` entries never fires
        -- because those entries are stored without a type
        -- (src/extension.js:1173-1177)
        let varType1 :=
          match env.variableTypes.lookup (srgName ++ "::" ++ memberName) with
          | some t => some t
          | none => exprType0
        afterResolve env identifier (some (srgName, memberName)) none varType1
    | none =>
      match varM with
      | some varName =>
        -- src/extension.js:4188-4224: expression inference for the var branch
        let exprType2 := getExpressionType env.structIndexKeys env.structMembers
          env.docLines expressionBeforeDot i
        let vA : Option String :=
          match exprType2 with
          | some t => some t
          | none =>
            match matchFuncCallDot beforeAccess with
            | some funcName =>
              if funcName = "mul" then
                match extractFunctionCallArgs expressionBeforeDot (ofStr "mul") with
                | some args =>
                  if 2 ≤ args.length then
                    let secondArg := trim (ofStr (args.getD 1 ""))
                    match vectorCtorSearch secondArg with
                    | some t => some t
                    | none =>
                      match matchIdent secondArg with
                      | some (v, _) =>
                        match getVariableTypeAtLine env.variableDeclarations
                            env.variableTypes (toStr v) i depth with
                        | some vt => if isVectorType vt then some vt else none
                        | none => none
                      | none => none
                  else none
                | none => none
              else none
            | none => none
        let vB :=
          if vA.isNone && (varName = "OUT" || varName = "out") then
            scopeReturnTypeAt env.functionScopes i
          else vA
        let vC :=
          if vB.isNone && (varName = "IN" || varName = "in") then
            scopeParamTypeAt env.functionScopes i
          else vB
        let vD :=
          if vC.isNone then
            getVariableTypeAtLine env.variableDeclarations env.variableTypes
              varName i depth
          else vC
        let vE := if vD.isNone then srgScanForVar env varName else vD
        let vF :=
          if vE.isNone && (atomTypesValidate.contains varName ||
              env.pascalCaseTypes.contains varName ||
              env.knownStructs.contains varName ||
              env.structIndexKeys.contains varName) then
            some varName
          else vE
        afterResolve env identifier none (some varName) vF
      | none => afterResolve env identifier none none exprType0

end Azsl

namespace Azsl

/-! ## The undeclared-identifier logic (src/extension.js:4405-4509) -/

def startsUpper (s : String) : Bool :=
  match ofStr s with
  | c :: _ => isUpperAlpha c
  | [] => false

def startsLowerUnderscore (s : String) : Bool :=
  match ofStr s with
  | c :: _ => isLowerAlpha c || c = '_'
  | [] => false

/-- `/:\s*$/` (src/extension.js:4410). -/
def endsColon (l : Chars) : Bool :=
  match trimRight l with
  | [] => false
  | cs => cs.getLast? = some ':'

/-- A `\bWORD\s+$` test for a list of words (src/extension.js:4413, 4416,
4419).  These are applied to the *trimmed* before-text in the source, where
`\s+$` can never match, but they are reproduced faithfully. -/
def endsWordWs (words : List Chars) (l : Chars) : Bool :=
  let r := l.reverse
  match r with
  | c :: _ =>
    if !isWsChar c then false
    else
      let afterWs := dropWs r
      words.any (fun w =>
        startsWithChars w.reverse afterWs &&
          (match afterWs.drop w.length with
           | [] => true
           | pc :: _ => !isWordChar pc))
  | [] => false

/-- The type-keyword alternation of src/extension.js:4416 with a trailing
`\s+$`: a full match of one of the type alternatives ending the string. -/
def typeKeywordEndsWs (l : Chars) : Bool :=
  let r := l.reverse
  match r with
  | c :: _ =>
    if !isWsChar c then false
    else
      let before := (dropWs r).reverse
      -- every position ending at the end of `before` such that an alternative
      -- matches there completely, with a word boundary on its left
      let alts : List TypeTok :=
        [.vecMat "float", .vecOnly "int", .vecOnly "uint", .litTok "bool",
         .litTok "half", .litTok "double", .litTok "void", .litTok "matrix",
         .wordStar "Texture", .wordStar "Sampler"]
      (List.range before.length).any (fun p =>
        let boundaryOk := p = 0 || !(isWordChar (before.getD (p - 1) ' '))
        boundaryOk &&
          (typeAltCands alts (before.drop p)).any (fun cand => cand.2.isEmpty))
  | [] => false

/-- `/\b[A-Z][A-Za-z0-9_]*\s+$/` (src/extension.js:4419). -/
def pascalEndsWs (l : Chars) : Bool :=
  let r := l.reverse
  match r with
  | c :: _ =>
    if !isWsChar c then false
    else
      let before := (dropWs r).reverse
      (List.range before.length).any (fun p =>
        let boundaryOk := p = 0 || !(isWordChar (before.getD (p - 1) ' '))
        boundaryOk &&
          (match before.drop p with
           | d :: ds => isUpperAlpha d && ds.all isWordChar
           | [] => false))
  | [] => false

/-- `/\([^)]*$/`: an opening parenthesis with no closing one after it. -/
def openParenUnclosed (l : Chars) : Bool :=
  let r := l.reverse
  (r.takeWhile (· ≠ '(')).all (· ≠ ')') && r.contains '('

/-- `/<[^>]*$/`: a `<` with no `>` after it. -/
def openAngleUnclosed (l : Chars) : Bool :=
  let r := l.reverse
  (r.takeWhile (· ≠ '<')).all (· ≠ '>') && r.contains '<'

/-- `/[\d.eE+-]\s*$/` (src/extension.js:4457). -/
def numericBefore (l : Chars) : Bool :=
  match (dropWs l.reverse) with
  | c :: _ =>
    isDigitChar c || c = '.' || c = 'e' || c = 'E' || c = '+' || c = '-'
  | [] => false

/-- Leftmost match of `/([A-Za-z_][A-Za-z0-9_]*)::([A-Za-z_][A-Za-z0-9_]*)/`
in a window (src/extension.js:4429); `upperFirst` asks for the
`[A-Z]`-leading variant of src/extension.js:4473. -/
def matchQualifiedIn (upperFirst : Bool) : Chars → Option (String × String)
  | [] => none
  | c :: cs =>
    let here : Option (String × String) :=
      match matchIdent (c :: cs) with
      | some (a, r) =>
        let headOk :=
          match a with
          | d :: _ => if upperFirst then isUpperAlpha d else true
          | [] => false
        if headOk then
          match matchLit (ofStr "::") r with
          | some r2 =>
            match matchIdent r2 with
            | some (b, _) => some (toStr a, toStr b)
            | none => none
          | none => none
        else none
      | none => none
    match here with
    | some x => some x
    | none => matchQualifiedIn upperFirst cs

/-- The 50-character window
`line.substring(Math.max(0, pos - 50), pos + identifier.length)` of
src/extension.js:4429 and 4473, taken on the original line. -/
def windowAround (line : Chars) (pos : Nat) (identifier : String) : Chars :=
  (line.drop (pos - min pos 50)).take ((min pos 50) + (ofStr identifier).length)

/-- The usage test of src/extension.js:4486-4494. -/
def isUsageAfter (afterMatch : Chars) : Bool :=
  let f := fun (p : Char → Bool) =>
    match dropWs afterMatch with
    | c :: _ => p c
    | [] => false
  f (· = ';') || f (fun c => "+-*/%<>!&|=".data.contains c) || f (· = '(') ||
    f (· = '[') || f (· = ',') || f (fun c => c = ')' || c = ']')

/-- The undeclared-identifier logic (src/extension.js:4405-4509): a cascade of
skip heuristics; what survives and starts with a lowercase letter or
underscore and looks used is flagged. -/
def undeclaredCheck (env : ValEnv) (line lineWithoutStrings : Chars)
    (pos : Nat) (identifier : String) : CheckOutcome :=
  let beforeMatch := lineWithoutStrings.take pos
  let afterMatch := lineWithoutStrings.drop (pos + (ofStr identifier).length)
  if startsUpper identifier && (env.pascalCaseTypes.contains identifier ||
      atomTypesValidate.contains identifier) then .skip
  else
    let trimmedBefore := trim beforeMatch
    if endsColon beforeMatch then .skip
    else if endsWordWs
        [ofStr "struct", ofStr "ShaderResourceGroup", ofStr "cbuffer",
         ofStr "tbuffer", ofStr "namespace", ofStr "class"] trimmedBefore then .skip
    else if typeKeywordEndsWs trimmedBefore then .skip
    else if pascalEndsWs trimmedBefore then .skip
    else if openParenUnclosed beforeMatch && containsChar afterMatch ')' then .skip
    else
      let srgWindowHit :=
        match matchQualifiedIn false (windowAround line pos identifier) with
        | some (a, b) =>
          if b = identifier then
            let fullSrgMember := a ++ "::" ++ b
            env.declarations.contains fullSrgMember ||
              atomTypesValidate.contains a || env.declarations.contains a ||
              (alistHas env.srgMembers a &&
                ((env.srgMembers.lookup a).getD []).contains identifier)
          else false
        | none => false
      if srgWindowHit then .skip
      else if env.declarations.any
          (fun d => containsSub (ofStr "::") (ofStr d) &&
            endsWithChars (ofStr ("::" ++ identifier)) (ofStr d)) then .skip
      else if numericBefore beforeMatch then .skip
      else if openAngleUnclosed beforeMatch || containsChar beforeMatch '"' then .skip
      else if atomFunctionsList.contains identifier then .skip
      else
        let nsWindowHit :=
          match matchQualifiedIn true (windowAround line pos identifier) with
          | some (_, b) => b == identifier
          | none => false
        if nsWindowHit then .skip
        else if startsUpper identifier then .skip
        else if containsChar beforeMatch '?' || containsChar (afterMatch.take 5) ':' then .skip
        else if !(isUsageAfter afterMatch) then .skip
        else if startsLowerUnderscore identifier then
          .diag ("use of undeclared identifier " ++ sq ++ identifier ++ sq)
        else .skip

/-- Check one identifier occurrence of the loop of src/extension.js:4032-4510:
the builtin and declaration guards, then the member-access branch, then (on
fall-through) the undeclared-identifier logic. -/
def checkIdentifier (env : ValEnv) (line lineWithoutStrings : Chars)
    (pos : Nat) (identifier : String) (i : Nat) (depth : Int) : CheckOutcome :=
  if builtinIdentifiersList.contains identifier then .skip
  else if env.declarations.contains identifier then .skip
  else
    let beforeMatch := lineWithoutStrings.take pos
    let viaMember :=
      if containsChar beforeMatch '.' || containsSub (ofStr "::") beforeMatch then
        memberAccessBranch env beforeMatch identifier i depth
      else .undeclaredPath
    match viaMember with
    | .undeclaredPath => undeclaredCheck env line lineWithoutStrings pos identifier
    | o => o

/-! ## Line preprocessing and the identifier iteration
(src/extension.js:3906-4510) -/

/-- `line.replace(/"[^"]*"/g, '""')` (src/extension.js:3929); fuel equal to
the line length suffices because every step consumes at least one character. -/
def maskStringsGo : Nat → Chars → Chars
  | 0, l => l
  | _, [] => []
  | fuel + 1, '"' :: cs =>
    match indexOfSub cs ['"'] with
    | some k => '"' :: '"' :: maskStringsGo fuel (cs.drop (k + 1))
    | none => '"' :: cs
  | fuel + 1, c :: cs => c :: maskStringsGo fuel cs

def maskStrings (l : Chars) : Chars := maskStringsGo l.length l

/-- `replace(/\/\*[\s\S]*?\*\//g, '')` on one line (src/extension.js:3955):
remove every closed `/* ... */` pair, left to right.  Fuel equal to the line
length suffices because every removal step consumes at least four characters. -/
def removeInlineBlockCommentsGo : Nat → Chars → Chars
  | 0, l => l
  | fuel + 1, l =>
    match indexOfSub l (ofStr "/*") with
    | some s =>
      match indexOfSub (l.drop (s + 2)) (ofStr "*/") with
      | some e =>
        l.take s ++ removeInlineBlockCommentsGo fuel ((l.drop (s + 2)).drop (e + 2))
      | none => l
    | none => l

def removeInlineBlockComments (l : Chars) : Chars :=
  removeInlineBlockCommentsGo l.length l

end Azsl

namespace Azsl

/-- Maximal word-character runs of a line with their positions; the identifier
regex `/\b([A-Za-z_][A-Za-z0-9_]*)\b/g` of src/extension.js:4032 matches
exactly the runs whose first character is a letter or underscore (a
digit-led run has no word boundary inside it). -/
def wordRunsGo : Nat → Nat → Chars → List (Nat × String)
  | 0, _, _ => []
  | _, _, [] => []
  | fuel + 1, pos, c :: cs =>
    if isWordChar c then
      let (w, r) := takeWord cs
      (pos, toStr (c :: w)) :: wordRunsGo fuel (pos + 1 + w.length) r
    else wordRunsGo fuel (pos + 1) cs

def wordRuns (l : Chars) : List (Nat × String) :=
  (wordRunsGo l.length 0 l).filter
    (fun p =>
      match ofStr p.2 with
      | c :: _ => isIdentStart c
      | [] => false)

/-- `lineWithoutStrings.replace(/\/\/.*$/g, '')` (src/extension.js:3957). -/
def cutLineComment (l : Chars) : Chars :=
  match indexOfSub l (ofStr "//") with
  | some k => l.take k
  | none => l

/-- The identifier loop of `validateDocument` on one line
(src/extension.js:3906-4510, without the separate syntax-error block of
src/extension.js:3959-4008): skip comment/preprocessor lines, mask string
literals, remove closed block comments and the `//` tail, then check every
identifier occurrence and collect the pushed diagnostics. -/
def sweepLineIdentifiers (env : ValEnv) (line : Chars) (i : Nat) (depth : Int) :
    List Diag :=
  let d := dropWs line
  if startsWithChars (ofStr "//") d || startsWithChars (ofStr "#") d then []
  else
    let lineWithoutStrings :=
      cutLineComment (removeInlineBlockComments (maskStrings line))
    (wordRuns lineWithoutStrings).filterMap
      (fun p =>
        match checkIdentifier env line lineWithoutStrings p.1 p.2 i depth with
        | .diag msg => some ⟨i, msg⟩
        | _ => none)

end Azsl

namespace Azsl

/-! ## The late syntax sweep (claim C8)

src/extension.js:4514-4616: a second whole-document loop that reports
incomplete member accesses (`name.` / `name::` at end of line when the next
line looks like a declaration continuation) and the raw `.;`, `..`, `::;`
syntax errors. -/

/-- A diagnostic with its character range on the line. -/
structure RangedDiag where
  line : Nat
  startCol : Nat
  endCol : Nat
  message : String
  deriving DecidableEq, Repr

/-- Does the trimmed line end in `identifier\s*\.`
(`/([A-Za-z_][A-Za-z0-9_]*)\s*\.\s*$/`, src/extension.js:4530). -/
def endsIdentDot (trimmed : Chars) : Bool :=
  match trimmed.reverse with
  | '.' :: rest =>
    let run := (dropWs rest).takeWhile isWordChar
    run.any isIdentStart
  | _ => false

/-- Does the trimmed line end in `identifier\s*::`
(`/([A-Za-z_][A-Za-z0-9_]*)\s*::\s*$/`, src/extension.js:4556). -/
def endsIdentColons (trimmed : Chars) : Bool :=
  match trimmed.reverse with
  | ':' :: ':' :: rest =>
    let run := (dropWs rest).takeWhile isWordChar
    run.any isIdentStart
  | _ => false

/-- The declaration-continuation test on the next line
(src/extension.js:4535-4536 and 4561-4562). -/
def looksLikeDeclContinuation (nextTrimmed : Chars) : Bool :=
  (["float", "int", "uint", "bool", "half", "double", "void", "matrix",
    "Texture", "Sampler", "struct", "class", "namespace",
    "ShaderResourceGroup", "cbuffer", "tbuffer", "#", "//", "/*"].any
    (fun w => startsWithChars (ofStr w) nextTrimmed)) ||
  (match nextTrimmed with
   | c :: cs =>
     if isUpperAlpha c then
       let (w, r) := takeWord cs
       let _ := w
       match r with
       | d :: ds =>
         isWsChar d &&
           (match dropWs ds with
            | e :: _ => isIdentStart e
            | [] => false)
       | [] => false
     else false
   | [] => false)

/-- Index of the start of the last occurrence of a substring
(`String.prototype.lastIndexOf`). -/
def lastIndexOfSub (l sub : Chars) : Option Nat :=
  (indexOfSub l.reverse sub.reverse).map (fun i => l.length - sub.length - i)

/-- A global scanner: at every word-boundary position try the pattern; on a
match record `(position, identifier length)` and resume after the match, as
`RegExp.prototype.exec` with the `g` flag does. -/
def scanGlobalGo (tryAt : Chars → Option (Nat × Nat)) :
    Nat → Nat → Option Char → Chars → List (Nat × Nat)
  | 0, _, _, _ => []
  | _, _, _, [] => []
  | fuel + 1, pos, prev, c :: cs =>
    let boundaryOk :=
      match prev with
      | none => true
      | some pc => !isWordChar pc
    match (if boundaryOk then tryAt (c :: cs) else none) with
    | some (identLen, matchLen) =>
      (pos, identLen) ::
        scanGlobalGo tryAt fuel (pos + matchLen)
          (((c :: cs).take matchLen).getLast?) ((c :: cs).drop matchLen)
    | none => scanGlobalGo tryAt fuel (pos + 1) (some c) cs

def scanGlobal (tryAt : Chars → Option (Nat × Nat)) (l : Chars) :
    List (Nat × Nat) :=
  scanGlobalGo tryAt l.length 0 none l

/-- `/\b([A-Za-z_][A-Za-z0-9_]*)\s*\.\s*;/` at one position: returns the
identifier length and the whole match length. -/
def tryDotSemi (l : Chars) : Option (Nat × Nat) :=
  match matchIdent l with
  | some (name, r) =>
    let w1 := r.length - (dropWs r).length
    match dropWs r with
    | '.' :: r2 =>
      let w2 := r2.length - (dropWs r2).length
      match dropWs r2 with
      | ';' :: _ => some (name.length, name.length + w1 + 1 + w2 + 1)
      | _ => none
    | _ => none
  | none => none

/-- `/\b([A-Za-z_][A-Za-z0-9_]*)\s*\.\s*\./` at one position. -/
def tryDotDot (l : Chars) : Option (Nat × Nat) :=
  match matchIdent l with
  | some (name, r) =>
    let w1 := r.length - (dropWs r).length
    match dropWs r with
    | '.' :: r2 =>
      let w2 := r2.length - (dropWs r2).length
      match dropWs r2 with
      | '.' :: _ => some (name.length, name.length + w1 + 1 + w2 + 1)
      | _ => none
    | _ => none
  | none => none

/-- `/\b([A-Za-z_][A-Za-z0-9_]*)\s*::\s*;/` at one position. -/
def tryColonsSemi (l : Chars) : Option (Nat × Nat) :=
  match matchIdent l with
  | some (name, r) =>
    let w1 := r.length - (dropWs r).length
    match dropWs r with
    | ':' :: ':' :: r2 =>
      let w2 := r2.length - (dropWs r2).length
      match dropWs r2 with
      | ';' :: _ => some (name.length, name.length + w1 + 2 + w2 + 1)
      | _ => none
    | _ => none
  | none => none

/-- `lineWithoutComments.indexOf(';', from)` as an absolute position. -/
def indexOfFrom (l : Chars) (c : Char) (start : Nat) : Option Nat :=
  (indexOfSub (l.drop start) [c]).map (· + start)

/-- The body of the late syntax loop for one line (src/extension.js:4514-4616).
`next?` is the following line, when there is one. -/
def lateSweepLine (line : Chars) (next? : Option Chars) (i : Nat) :
    List RangedDiag :=
  let d := dropWs line
  if startsWithChars (ofStr "//") d || startsWithChars (ofStr "#") d then []
  else
    let lineWithoutComments := cutLineComment (removeInlineBlockComments line)
    let trimmedLine := trim lineWithoutComments
    let dotDiags : List RangedDiag :=
      if endsIdentDot trimmedLine then
        let fire :=
          match next? with
          | some nextLine => looksLikeDeclContinuation (trim nextLine)
          | none => true
        if fire then
          match lastIndexOfChar line '.' with
          | some dotPos => [⟨i, dotPos, dotPos + 1, "incomplete member access"⟩]
          | none => []
        else []
      else []
    let colonDiags : List RangedDiag :=
      if endsIdentColons trimmedLine then
        let fire :=
          match next? with
          | some nextLine => looksLikeDeclContinuation (trim nextLine)
          | none => true
        if fire then
          match lastIndexOfSub line (ofStr "::") with
          | some colonPos => [⟨i, colonPos, colonPos + 2, "incomplete member access"⟩]
          | none => []
        else []
      else []
    let dotSemiDiags :=
      (scanGlobal tryDotSemi lineWithoutComments).map
        (fun p =>
          let dotPos := p.1 + p.2
          let semiPos := (indexOfFrom lineWithoutComments ';' dotPos).getD dotPos
          (⟨i, dotPos, semiPos + 1,
            "syntax error: unexpected " ++ sq ++ ";" ++ sq ++ " after " ++
              sq ++ "." ++ sq⟩ : RangedDiag))
    let dotDotDiags :=
      (scanGlobal tryDotDot lineWithoutComments).map
        (fun p =>
          let firstDotPos := p.1 + p.2
          (⟨i, firstDotPos, firstDotPos + 2,
            "syntax error: unexpected " ++ sq ++ "." ++ sq ++ " after " ++
              sq ++ "." ++ sq⟩ : RangedDiag))
    let colonsSemiDiags :=
      (scanGlobal tryColonsSemi lineWithoutComments).map
        (fun p =>
          let colonPos := p.1 + p.2
          let semiPos := (indexOfFrom lineWithoutComments ';' colonPos).getD colonPos
          (⟨i, colonPos, semiPos + 1,
            "syntax error: unexpected " ++ sq ++ ";" ++ sq ++ " after " ++
              sq ++ "::" ++ sq⟩ : RangedDiag))
    dotDiags ++ colonDiags ++ dotSemiDiags ++ dotDotDiags ++ colonsSemiDiags

/-- The whole late syntax sweep (src/extension.js:4514-4616). -/
def lateSweep (lines : List Chars) : List RangedDiag :=
  (lines.enum.flatMap
    (fun p => lateSweepLine p.2 (lines.drop (p.1 + 1) |>.head?) p.1))

end Azsl

namespace Azsl

/-! ## Documents, the validation entry point and completion (claim C10) -/

/-- A host document as the core consumes it: language id, base file name
(`document.fileName.split(/[/\\]/).pop()`, src/extension.js:3386), URI and
the text split into lines. -/
structure Document where
  languageId : String
  fileName : String
  uri : String
  lines : List Chars
  deriving Repr

/-- src/extension.js:3451-3456: the Surface member default. -/
def surfaceDefaultMembers : List String :=
  ["position", "normal", "vertexNormal", "metallic", "roughnessLinear",
   "opacityAffectsSpecularFactor", "opacityAffectsEmissiveFactor",
   "albedo", "roughnessA",
   "CalculateRoughnessA", "SetAlbedoAndSpecularF0", "GetDefaultNormal",
   "GetSpecularF0"]

/-- src/extension.js:3459-3463: the LightingData member default. -/
def lightingDataDefaultMembers : List String :=
  ["diffuseResponse", "specularResponse", "diffuseLighting",
   "specularLighting", "diffuseAmbientOcclusion", "specularOcclusion",
   "Init", "FinalizeLighting"]

/-- src/extension.js:3466-3469 and 3473-3476: the ForwardPassOutput members. -/
def forwardPassOutputMembers : List String :=
  ["m_color", "m_diffuseColor", "m_specularColor", "m_albedo",
   "m_specularF0", "m_normal", "m_scatterDistance", "m_depth"]

/-- src/extension.js:3480-3483: the DirectionalLight members. -/
def directionalLightMembers : List String :=
  ["m_direction", "m_angularRadius", "m_rgbIntensityLux",
   "m_affectsGIFactor", "m_affectsGI", "m_lightingChannelMask", "m_padding"]

/-- The defaulting block of `validateDocument` (src/extension.js:3450-3487):
seed the Atom member tables when absent. -/
def ensureAtomDefaults (st : IndexState) : IndexState :=
  let atm := st.atomTypeMembers
  let atm := if alistHas atm "Surface" then atm
    else alistSet atm "Surface" surfaceDefaultMembers
  let atm := if alistHas atm "LightingData" then atm
    else alistSet atm "LightingData" lightingDataDefaultMembers
  let atm := if alistHas atm "ForwardPassOutput" then atm
    else alistSet atm "ForwardPassOutput" forwardPassOutputMembers
  let sm := st.structMembers
  let sm := if alistHas sm "ForwardPassOutput" then sm
    else alistSet sm "ForwardPassOutput" forwardPassOutputMembers
  let sm := if alistHas sm "DirectionalLight" then sm
    else alistSet sm "DirectionalLight" directionalLightMembers
  { st with atomTypeMembers := atm, structMembers := sm }

/-- The `validateDocument` entry point (src/extension.js:3383-3384 and the
passes embedded in this development): the language-id guard returns
immediately for non-`azsl` documents, publishing nothing and leaving the
index untouched; otherwise the modelled passes run — the struct-member merge
of the current document (here taken as already-scanned member sets), the
Atom-member defaulting, the option/ShaderVariantFallback pass and the late
syntax sweep.  The identifier loop is modelled separately by
`sweepLineIdentifiers`. -/
def validateDocumentModel (st : IndexState) (doc : Document)
    (currentDocStructMembers : List (String × List String)) :
    IndexState × List Diag :=
  if doc.languageId ≠ "azsl" then (st, [])
  else
    let st1 := { st with
      structMembers := mergeStructMembers st.structMembers currentDocStructMembers }
    let st2 := ensureAtomDefaults st1
    let diags :=
      fallbackPassDiags doc.fileName
        (st2.optionIndex.map (fun p => (p.1, p.2.isStatic)))
        (st2.srgSemanticIndex.map Prod.fst) doc.lines ++
      (lateSweep doc.lines).map (fun d => (⟨d.line, d.message⟩ : Diag))
    (st2, diags)

/-- ASCII lower casing for the case-insensitive completion filters. -/
def toLowerChar (c : Char) : Char :=
  if isUpperAlpha c then Char.ofNat (c.toNat + 32) else c

def lowerStr (s : String) : String := toStr ((ofStr s).map toLowerChar)

/-- `prop.toLowerCase().startsWith(current.toLowerCase())` guarded by
`!current ||` (src/extension.js:1638, 1706, ...). -/
def completionKeeps (current : String) (label : String) : Bool :=
  current = "" || startsWithChars (ofStr (lowerStr current)) (ofStr (lowerStr label))

/-- The word the cursor touches, modelling the host's
`getWordRangeAtPosition` (src/extension.js:1615-1616). -/
def wordAtCursor (lineText : Chars) (character : Nat) : String :=
  let left := ((lineText.take character).reverse.takeWhile isWordChar).reverse
  let right := (lineText.drop character).takeWhile isWordChar
  toStr (left ++ right)

/-- `/([A-Za-z_][A-Za-z0-9_]*)\s*[\.:]\s*$/` (src/extension.js:1652). -/
def matchMemberAccessEnd : Chars → Option String
  | [] => none
  | c :: cs =>
    let here : Option String :=
      match matchIdent (c :: cs) with
      | some (name, r) =>
        match dropWs r with
        | d :: r2 =>
          if (d = '.' || d = ':') && isBlank r2 then some (toStr name) else none
        | [] => none
      | none => none
    match here with
    | some x => some x
    | none => matchMemberAccessEnd cs

/-- src/extension.js:1688: the atom-type fallback set of the completion
provider. -/
def atomTypesCompletion : List String :=
  ["Surface", "LightingData", "DirectionalLight", "SimplePointLight",
   "PointLight", "SimpleSpotLight", "DiskLight"]

/-- `provideCompletionItems` (src/extension.js:1610-1790), as the list of
completion labels.  The language-id guard of src/extension.js:1611-1613
returns the empty list for non-`azsl` documents.  The body models the
swizzle completion for call expressions, the member completion over
`atomTypeMembers` / `structMembers` / vector swizzles, and the trailing
`indexedSymbols` items; the trigger-character fallback of
src/extension.js:1656-1659 depends on host context and is not modelled, and
the `Texture*` branch of src/extension.js:1750 reads a `textureTypes` name
that is not in scope there, so it is left out. -/
def provideCompletionItemsModel (st : IndexState) (doc : Document)
    (line character : Nat) : List String :=
  if doc.languageId ≠ "azsl" then []
  else
    let lineText := doc.lines.getD line []
    let beforeCursor := lineText.take character
    let current := wordAtCursor lineText character
    let viaExpr : Option (List String) :=
      match lastIndexOfChar beforeCursor '.' with
      | some dotIndex =>
        let exprBefore := trim (beforeCursor.take dotIndex)
        if endsWithChars (ofStr ")") exprBefore then
          match getExpressionType (st.structIndex.map Prod.fst) st.structMembers
              doc.lines exprBefore line with
          | some exprType =>
            if isVectorType exprType then
              let items := (getSwizzleProperties exprType).filter
                (completionKeeps current)
              if items.isEmpty then none else some items
            else none
          | none => none
        else none
      | none => none
    match viaExpr with
    | some items => items
    | none =>
      let viaMember : Option (List String) :=
        match matchMemberAccessEnd beforeCursor with
        | some varName =>
          let vt0 :=
            if varName = "OUT" || varName = "out" then
              scopeReturnTypeAt (computeFunctionScopes false doc.lines) line
            else none
          let vt1 :=
            if vt0.isNone && (varName = "IN" || varName = "in") then
              scopeParamTypeAt (computeFunctionScopes false doc.lines) line
            else vt0
          let vt2 :=
            if vt1.isNone then
              getVariableTypeAtPosition (st.structIndex.map Prod.fst)
                st.structMembers doc.lines varName line
            else vt1
          let vt3 :=
            if vt2.isNone && atomTypesCompletion.contains varName then
              some varName
            else vt2
          match vt3 with
          | some t =>
            if alistHas st.atomTypeMembers t then
              some (((st.atomTypeMembers.lookup t).getD []).filter
                (completionKeeps current))
            else if alistHas st.structMembers t then
              some (((st.structMembers.lookup t).getD []).filter
                (completionKeeps current))
            else if isVectorType t then
              some ((getSwizzleProperties t).filter (completionKeeps current))
            else none
          | none => none
        | none => none
      match viaMember with
      | some items => items
      | none => st.indexedSymbols

end Azsl

namespace Azsl

/-! ## Example states and documents used by the claim theorems -/

/-- An index state as it stands after an earlier reindex left one function
entry behind. -/
def staleFunctionState : IndexState :=
  { indexedSymbols := ["OLD_SYMBOL"]
    headersPathIndex := [("a/b.azsli", "/root/a/b.azsli")]
    headersBasenameIndex := [("b.azsli", ["/root/a/b.azsli"])]
    macroIndex := [("OLD_MACRO", ⟨"1", "", "/root/a/b.azsli", 0⟩)]
    atomMethodIndex := [("Surface.Old", ⟨"/root/a/b.azsli", 3⟩)]
    atomTypeMembers := [("Surface", ["OldMember"])]
    srgSemanticIndex := [("SRG_Custom", ⟨"/root/a/b.azsli", 1⟩)]
    srgMembers := [("OldSrg", ["m_old"])]
    srgMemberIndex := [("OldSrg::m_old", ⟨"/root/a/b.azsli", 2⟩)]
    srgIndex := [("OldSrg", ⟨"/root/a/b.azsli", 1⟩)]
    structIndex := [("OldStruct", ⟨"/root/a/b.azsli", 5⟩)]
    structMembers := [("OldStruct", ["m_x"])]
    functionIndex := [("MainPS", ⟨"/root/a/b.azsli", 12⟩)]
    optionIndex := [("o_old", ⟨false, 7⟩)] }

/-- An empty index state. -/
def emptyIndexState : IndexState :=
  ⟨[], [], [], [], [], [], [], [], [], [], [], [], [], []⟩

end Azsl

namespace Azsl

/-- **C3.**  Every invocation of reindex (`indexHeaders`) first resets every
symbol table of the index — including the function index — and reseeds the
built-in SRG semantics and the built-in Atom-type member baselines before
scanning any file, so no entry produced by an earlier reindex survives into
the rebuilt index.  The reset prefix of `indexHeaders`
(src/extension.js:1060-1099) does clear and reseed the thirteen other
tables, but it never clears `functionIndex`, so a function entry produced by
an earlier reindex survives: the claim is right about the intent and the
code violates it.  This theorem exhibits the violation on a concrete stale
state and shows that the surviving table is exactly the function index. -/
theorem claim_C3_function_index_survives_reindex :
    (∀ s : IndexState,
      (clearAndSeed s).functionIndex = s.functionIndex ∧
      (clearAndSeed s).indexedSymbols = [] ∧
      (clearAndSeed s).headersPathIndex = [] ∧
      (clearAndSeed s).headersBasenameIndex = [] ∧
      (clearAndSeed s).macroIndex = [] ∧
      (clearAndSeed s).atomMethodIndex = [] ∧
      (clearAndSeed s).atomTypeMembers = seededAtomTypeMembers ∧
      (clearAndSeed s).srgSemanticIndex =
        builtinSrgSemantics.map (fun n => (n, ⟨"azsl-builtin://srg-semantics", 0⟩)) ∧
      (clearAndSeed s).srgMembers = [] ∧
      (clearAndSeed s).srgMemberIndex = [] ∧
      (clearAndSeed s).srgIndex = [] ∧
      (clearAndSeed s).structIndex = [] ∧
      (clearAndSeed s).structMembers = [] ∧
      (clearAndSeed s).optionIndex = []) ∧
    (clearAndSeed staleFunctionState).functionIndex =
      [("MainPS", ⟨"/root/a/b.azsli", 12⟩)] :=
  ⟨fun _ => ⟨rfl, rfl, rfl, rfl, rfl, rfl, rfl, rfl, rfl, rfl, rfl, rfl, rfl, rfl⟩,
   rfl⟩

/-- **C8.**  Validating a document containing a line ending in `foo.` whose
next line starts with `float` produces an "incomplete member access"
diagnostic whose range is anchored at the `.` character (column 3, width 1);
validating the same `foo.` line when the next line starts with a lowercase
continuation such as `bar();` does not produce that diagnostic.
src/extension.js:4528-4554. -/
theorem claim_C8_incomplete_member_access :
    lateSweep [ofStr "foo.", ofStr "float result = 1;"] =
      [⟨0, 3, 4, "incomplete member access"⟩] ∧
    (ofStr "foo.").getD 3 ' ' = '.' ∧
    lateSweep [ofStr "foo.", ofStr "bar();"] = [] := by
  refine ⟨?_, rfl, ?_⟩ <;> rfl

/-- **C10.**  For every document whose language id is not `azsl`,
`validateDocument` returns immediately without computing or publishing any
diagnostics and without modifying any symbol table, and
`provideCompletionItems` returns the empty list
(src/extension.js:3383-3384 and 1610-1613). -/
theorem claim_C10_language_id_guard :
    (∀ (st : IndexState) (doc : Document)
      (cur : List (String × List String)), doc.languageId ≠ "azsl" →
        validateDocumentModel st doc cur = (st, [])) ∧
    (∀ (st : IndexState) (doc : Document) (line character : Nat),
      doc.languageId ≠ "azsl" →
        provideCompletionItemsModel st doc line character = []) := by
  constructor
  · intro st doc cur h
    simp [validateDocumentModel, h]
  · intro st doc line character h
    simp [provideCompletionItemsModel, h]

/-- Witness for C10: a concrete non-`azsl` document passes through both
guards. -/
theorem claim_C10_witness :
    validateDocumentModel emptyIndexState
        ⟨"cpp", "Test.cpp", "file:///Test.cpp", [ofStr "int main();"]⟩ [] =
      (emptyIndexState, []) ∧
    provideCompletionItemsModel emptyIndexState
        ⟨"cpp", "Test.cpp", "file:///Test.cpp", [ofStr "int main();"]⟩ 0 0 = [] :=
  ⟨claim_C10_language_id_guard.1 emptyIndexState
      ⟨"cpp", "Test.cpp", "file:///Test.cpp", [ofStr "int main();"]⟩ []
      (by decide),
   claim_C10_language_id_guard.2 emptyIndexState
      ⟨"cpp", "Test.cpp", "file:///Test.cpp", [ofStr "int main();"]⟩ 0 0
      (by decide)⟩

end Azsl

namespace Azsl

/-! ## Association-list lemmas -/

theorem lookup_map_set {α : Type} (l : List (String × α)) (k : String)
    (v : α) (hhas : (l.lookup k).isSome = true) :
    (l.map (fun p => if p.1 = k then (k, v) else p)).lookup k = some v := by
  induction l with
  | nil => simp at hhas
  | cons p t ih =>
    obtain ⟨a, b⟩ := p
    by_cases hak : a = k
    · subst hak
      simp [List.lookup_cons]
    · have hb : (k == a) = false := beq_false_of_ne (fun he => hak he.symm)
      simp only [List.map_cons, if_neg hak]
      simp only [List.lookup_cons, hb] at hhas ⊢
      exact ih hhas

theorem lookup_map_set_ne {α : Type} (l : List (String × α)) (k k' : String)
    (v : α) (h : k' ≠ k) :
    (l.map (fun p => if p.1 = k then (k, v) else p)).lookup k' = l.lookup k' := by
  induction l with
  | nil => simp
  | cons p t ih =>
    obtain ⟨a, b⟩ := p
    by_cases hak : a = k
    · subst hak
      have hbk : (k' == a) = false := beq_false_of_ne h
      simp only [List.map_cons, eq_self_iff_true, if_true]
      simp only [List.lookup_cons, hbk]
      exact ih
    · simp only [List.map_cons, if_neg hak, List.lookup_cons]
      cases hb : (k' == a)
      · simp only [hb]
        exact ih
      · simp only [hb]

theorem lookup_append_single {α : Type} (l : List (String × α)) (k : String)
    (v : α) (hno : l.lookup k = none) : (l ++ [(k, v)]).lookup k = some v := by
  induction l with
  | nil => simp
  | cons p t ih =>
    obtain ⟨a, b⟩ := p
    cases hb : (k == a)
    · simp only [List.lookup_cons, hb] at hno
      simp only [List.cons_append, List.lookup_cons, hb]
      exact ih hno
    · simp [List.lookup_cons, hb] at hno

theorem lookup_append_single_ne {α : Type} (l : List (String × α))
    (k k' : String) (v : α) (h : k' ≠ k) :
    (l ++ [(k, v)]).lookup k' = l.lookup k' := by
  induction l with
  | nil =>
    have hbe : (k' == k) = false := beq_false_of_ne h
    simp [List.lookup_cons, hbe]
  | cons p t ih =>
    obtain ⟨a, b⟩ := p
    simp only [List.cons_append, List.lookup_cons]
    cases hb : (k' == a)
    · simp only [hb]
      exact ih
    · simp only [hb]

theorem lookup_alistSet_eq {α : Type} (l : List (String × α)) (k : String)
    (v : α) : (alistSet l k v).lookup k = some v := by
  unfold alistSet
  split
  · exact lookup_map_set l k v (by assumption)
  · exact lookup_append_single l k v
      (by rename_i hn; cases hx : l.lookup k
          · rfl
          · exact absurd (by simp [hx]) hn)

theorem lookup_alistSet_ne {α : Type} (l : List (String × α)) (k k' : String)
    (v : α) (h : k' ≠ k) : (alistSet l k v).lookup k' = l.lookup k' := by
  unfold alistSet
  split
  · exact lookup_map_set_ne l k k' v h
  · exact lookup_append_single_ne l k k' v h

/-! ## Claim C4: struct-member monotonicity -/

theorem mem_setAdd_of_mem {l : List String} {x m : String} (h : m ∈ l) :
    m ∈ setAdd l x := by
  unfold setAdd
  split
  · exact h
  · exact List.mem_append_left _ h

theorem mem_foldl_setAdd {ms : List String} {l : List String} {m : String}
    (h : m ∈ l) : m ∈ ms.foldl setAdd l := by
  induction ms generalizing l with
  | nil => exact h
  | cons x xs ih => exact ih (mem_setAdd_of_mem h)

/-- **C4.**  For every struct name `S`, the member set recorded for `S` only
grows: the merge loops of `indexHeaders` (src/extension.js:1188-1199) and of
`validateDocument` (src/extension.js:3435-3447) never remove a previously
recorded member, and ingesting `S` with members `{a,b}` and then `{b,c}`
yields the member set `{a,b,c}` in either ingestion order. -/
theorem claim_C4_struct_member_monotonicity :
    (∀ (tbl decls : List (String × List String)) (S m : String),
      m ∈ (tbl.lookup S).getD [] →
        m ∈ ((mergeStructMembers tbl decls).lookup S).getD []) ∧
    (∀ m : String,
      m ∈ ((mergeStructMembers (mergeStructMembers [] [("S", ["a", "b"])])
            [("S", ["b", "c"])]).lookup "S").getD [] ↔
        m ∈ (["a", "b", "c"] : List String)) ∧
    (∀ m : String,
      m ∈ ((mergeStructMembers (mergeStructMembers [] [("S", ["b", "c"])])
            [("S", ["a", "b"])]).lookup "S").getD [] ↔
        m ∈ (["a", "b", "c"] : List String)) := by
  refine ⟨?_, ?_, ?_⟩
  · intro tbl decls S m h
    induction decls generalizing tbl with
    | nil => simpa [mergeStructMembers] using h
    | cons p ds ih =>
      show m ∈ ((mergeStructMembers
        (alistSet tbl p.1 (p.2.foldl setAdd ((tbl.lookup p.1).getD []))) ds).lookup S).getD []
      apply ih
      by_cases hS : S = p.1
      · rw [hS, lookup_alistSet_eq]
        exact mem_foldl_setAdd (by rw [← hS]; exact h)
      · rw [lookup_alistSet_ne _ _ _ _ hS]
        exact h
  · intro m
    show m ∈ (["a", "b", "c"] : List String) ↔ m ∈ (["a", "b", "c"] : List String)
    exact Iff.rfl
  · intro m
    show m ∈ (["b", "c", "a"] : List String) ↔ m ∈ (["a", "b", "c"] : List String)
    simp [List.mem_cons]
    tauto

/-- Witness for C4: the monotonicity part applied at a concrete table,
scan result, struct and member. -/
theorem claim_C4_witness :
    "a" ∈ (((mergeStructMembers [("S", ["a", "b"])] [("S", ["b", "c"])]).lookup
      "S").getD []) :=
  claim_C4_struct_member_monotonicity.1 [("S", ["a", "b"])] [("S", ["b", "c"])]
    "S" "a" (by decide)

end Azsl

namespace Azsl

/-! ## Claim C9: the is-declared-static flag -/

/-- The static *keyword* of the option grammar
`option [static] bool|int|uint NAME [= value];`: present exactly when the
token after `option` is `static`. -/
def staticKeywordPresent (line : Chars) : Bool :=
  let l := dropWs line
  match matchLit (ofStr "option") l with
  | none => false
  | some r0 =>
    match matchWs1 r0 with
    | none => false
    | some r1 =>
      match matchLit (ofStr "static") r1 with
      | some rs => (matchWs1 rs).isSome
      | none => false

/-- **C9, counterexample.**  The claim says the indexed entry's
is-declared-static flag is true exactly when the `static` keyword is present.
On `option bool o_static = true;` the keyword is absent, yet
`extractOptionDeclarations` flags the entry as static, because
src/extension.js:846 derives the flag from
`processedLine.includes('static')` and the substring occurs inside the
option name. -/
theorem claim_C9_counterexample :
    extractOptionDeclarations [ofStr "option bool o_static = true;"] =
      [("o_static", ⟨true, 0⟩)] ∧
    staticKeywordPresent (ofStr "option bool o_static = true;") = false := by
  exact ⟨rfl, rfl⟩

/-- **C9, amended.**  For every scanned declaration line matching
`option [static] bool|int|uint NAME [= value];`, the indexed option entry's
is-declared-static flag is true exactly when the comment-stripped line
contains the substring `static` anywhere — in particular it is true whenever
the `static` keyword is present, but also when the substring occurs in the
option name or initializer (src/extension.js:843-857). -/
theorem claim_C9_amended :
    (∀ (l : Chars) (name : Chars),
      stripCommentsLine false l = (false, some l) →
      matchOptionDecl (trim l) = some name →
      extractOptionDeclarations [l] =
        [(toStr name, ⟨containsSub (ofStr "static") (trim l), 0⟩)]) ∧
    extractOptionDeclarations [ofStr "option static bool o_a = 1;"] =
      [("o_a", ⟨true, 0⟩)] ∧
    extractOptionDeclarations [ofStr "option bool o_b = 1;"] =
      [("o_b", ⟨false, 0⟩)] := by
  refine ⟨?_, rfl, rfl⟩
  intro l name hstrip hmatch
  have hne : (trim l).isEmpty = false := by
    cases he : (trim l).isEmpty
    · rfl
    · exfalso
      have : trim l = [] := by
        cases h2 : trim l
        · rfl
        · rw [h2] at he
          simp [List.isEmpty] at he
      rw [this] at hmatch
      simp [matchOptionDecl, dropWs, matchLit, startsWithChars, ofStr,
        List.isPrefixOf] at hmatch
  have hne2 : ¬(trim l = []) := by
    intro he
    rw [he] at hne
    simp [List.isEmpty] at hne
  simp [extractOptionDeclarations, hstrip, hne, hmatch, hne2]

/-- Witness for C9's amended statement: the general rule applied to the
counterexample line. -/
theorem claim_C9_witness :
    extractOptionDeclarations [ofStr "option bool o_static2 = true;"] =
      [("o_static2", ⟨true, 0⟩)] := by
  have h := claim_C9_amended.1 (ofStr "option bool o_static2 = true;")
    (ofStr "o_static2") (by rfl) (by rfl)
  simpa using h

end Azsl

namespace Azsl

/-! ## Claim C5: scope-aware variable typing -/

/-- A declaration qualifies for a query when its line is at or before the
query line and its recorded brace depth is at most the depth of the query
line. -/
def qualifies (lineNum : Nat) (target : Int) (d : VarDecl) : Prop :=
  d.line ≤ lineNum ∧ d.braceDepth ≤ target

/-- The preference order of the claim: deeper brace depth first, later line
among equal depths. -/
def scopePref (d b : VarDecl) : Prop :=
  d.braceDepth < b.braceDepth ∨
    (d.braceDepth = b.braceDepth ∧ d.line ≤ b.line)

theorem scopePref_refl (d : VarDecl) : scopePref d d :=
  Or.inr ⟨rfl, le_refl _⟩

theorem scopePref_trans {d b b' : VarDecl} (h1 : scopePref d b)
    (h2 : scopePref b b') : scopePref d b' := by
  rcases h1 with h1 | ⟨h1a, h1b⟩ <;> rcases h2 with h2 | ⟨h2a, h2b⟩
  · exact Or.inl (lt_trans h1 h2)
  · exact Or.inl (by omega)
  · exact Or.inl (by omega)
  · exact Or.inr ⟨by omega, le_trans h1b h2b⟩

/-- The state invariant of the selection loop: either nothing was selected
and the tracked depth is still `-1`, or the tracked depth is the depth of
the selected qualifying declaration, which is at least `-1`. -/
def selInv (lineNum : Nat) (target : Int) (st : Option VarDecl × Int) : Prop :=
  (st.1 = none ∧ st.2 = -1) ∨
    ∃ b, st.1 = some b ∧ st.2 = b.braceDepth ∧ -1 ≤ b.braceDepth ∧
      qualifies lineNum target b

theorem selectStep_spec (lineNum : Nat) (target : Int)
    (st : Option VarDecl × Int) (d : VarDecl)
    (hinv : selInv lineNum target st) :
    selInv lineNum target (selectStep lineNum target st d) ∧
    (∀ b, (selectStep lineNum target st d).1 = some b →
      st.1 = some b ∨ b = d) ∧
    (∀ b0, st.1 = some b0 →
      ∃ b1, (selectStep lineNum target st d).1 = some b1 ∧ scopePref b0 b1) ∧
    (qualifies lineNum target d →
      (∃ b1, (selectStep lineNum target st d).1 = some b1 ∧ scopePref d b1) ∨
      ((selectStep lineNum target st d).1 = none ∧ d.braceDepth < -1)) := by
  have hst2 : -1 ≤ st.2 := by
    rcases hinv with ⟨hn, hd2⟩ | ⟨b, hb, hd, hge, hqb'⟩ <;> omega
  unfold selectStep
  by_cases hq : d.line ≤ lineNum ∧ d.braceDepth ≤ target
  · have hqb : (decide (d.line ≤ lineNum) && decide (d.braceDepth ≤ target)) = true := by
      simp [hq.1, hq.2]
    rw [if_pos hqb]
    by_cases h1 : d.braceDepth > st.2
    · rw [if_pos h1]
      refine ⟨Or.inr ⟨d, rfl, rfl, by omega, hq⟩, ?_, ?_, ?_⟩
      · intro b hb
        exact Or.inr (by simpa using hb.symm)
      · intro b0 hb0
        rcases hinv with ⟨hn, _⟩ | ⟨b, hb, hd, hge, hqb'⟩
        · rw [hn] at hb0; exact absurd hb0 (by simp)
        · rw [hb] at hb0
          cases hb0
          exact ⟨d, rfl, Or.inl (by omega)⟩
      · intro _
        exact Or.inl ⟨d, rfl, scopePref_refl d⟩
    · rw [if_neg h1]
      by_cases h2 : d.braceDepth = st.2 ∧
          (d.line : Int) > (match st.1 with | some b => (b.line : Int) | none => -1)
      · have h2b : (decide (d.braceDepth = st.2) &&
            decide ((d.line : Int) > (match st.1 with | some b => (b.line : Int) | none => -1))) = true := by
          simp [h2.1, h2.2]
        rw [if_pos h2b]
        rcases hinv with ⟨hn, hd2⟩ | ⟨b, hb, hd, hge, hqb'⟩
        · refine ⟨Or.inr ⟨d, rfl, by have h3 := h2.1; omega,
            by have h3 := h2.1; omega, hq⟩, ?_, ?_, ?_⟩
          · intro b hb; exact Or.inr (by simpa using hb.symm)
          · intro b0 hb0; rw [hn] at hb0; exact absurd hb0 (by simp)
          · intro _; exact Or.inl ⟨d, rfl, scopePref_refl d⟩
        · refine ⟨Or.inr ⟨d, rfl, by have h3 := h2.1; omega,
            by have h3 := h2.1; omega, hq⟩, ?_, ?_, ?_⟩
          · intro b' hb'; exact Or.inr (by simpa using hb'.symm)
          · intro b0 hb0
            rw [hb] at hb0
            cases hb0
            refine ⟨d, rfl, Or.inr ⟨by omega, ?_⟩⟩
            have := h2.2
            rw [hb] at this
            simp at this
            omega
          · intro _; exact Or.inl ⟨d, rfl, scopePref_refl d⟩
      · have h2b : (decide (d.braceDepth = st.2) &&
            decide ((d.line : Int) > (match st.1 with | some b => (b.line : Int) | none => -1))) = false := by
          rcases Decidable.not_and_iff_or_not.mp h2 with h | h <;> simp [h]
        rw [if_neg (by simp [h2b])]
        rcases hinv with ⟨hn, hd2⟩ | ⟨b, hb, hd, hge, hqb'⟩
        · refine ⟨Or.inl ⟨hn, hd2⟩, ?_, ?_, ?_⟩
          · intro b hb; rw [hn] at hb; exact absurd hb (by simp)
          · intro b0 hb0; rw [hn] at hb0; exact absurd hb0 (by simp)
          · intro _
            refine Or.inr ⟨hn, ?_⟩
            rw [hn] at h2
            have hlt : d.braceDepth ≤ st.2 := by omega
            rw [hd2] at hlt h1
            rcases Decidable.not_and_iff_or_not.mp h2 with h | h
            · rw [hd2] at h; omega
            · simp at h
              omega
        · refine ⟨Or.inr ⟨b, hb, hd, hge, hqb'⟩, ?_, ?_, ?_⟩
          · intro b' hb'; exact Or.inl hb'
          · intro b0 hb0
            rw [hb] at hb0
            cases hb0
            exact ⟨b, hb, scopePref_refl b⟩
          · intro _
            refine Or.inl ⟨b, hb, ?_⟩
            rcases Decidable.not_and_iff_or_not.mp h2 with h | h
            · exact Or.inl (by omega)
            · rw [hb] at h
              simp at h
              by_cases hdd : d.braceDepth = st.2
              · exact Or.inr ⟨by omega, by omega⟩
              · exact Or.inl (by omega)
  · have hqb : (decide (d.line ≤ lineNum) && decide (d.braceDepth ≤ target)) = false := by
      rcases Decidable.not_and_iff_or_not.mp hq with h | h <;> simp [h]
    rw [if_neg (by simp [hqb])]
    refine ⟨hinv, ?_, ?_, ?_⟩
    · intro b hb; exact Or.inl hb
    · intro b0 hb0; exact ⟨b0, hb0, scopePref_refl b0⟩
    · intro hqd; exact absurd hqd hq

theorem selectFold_spec (lineNum : Nat) (target : Int) :
    ∀ (ds : List VarDecl) (st : Option VarDecl × Int),
    selInv lineNum target st →
    selInv lineNum target (ds.foldl (selectStep lineNum target) st) ∧
    (∀ b, (ds.foldl (selectStep lineNum target) st).1 = some b →
      st.1 = some b ∨ b ∈ ds) ∧
    (∀ b0, st.1 = some b0 →
      ∃ b, (ds.foldl (selectStep lineNum target) st).1 = some b ∧ scopePref b0 b) ∧
    (∀ d ∈ ds, qualifies lineNum target d →
      (∃ b, (ds.foldl (selectStep lineNum target) st).1 = some b ∧ scopePref d b) ∨
      ((ds.foldl (selectStep lineNum target) st).1 = none ∧ d.braceDepth < -1)) := by
  intro ds
  induction ds with
  | nil =>
    intro st hinv
    refine ⟨hinv, ?_, ?_, ?_⟩
    · intro b hb; exact Or.inl hb
    · intro b0 hb0; exact ⟨b0, hb0, scopePref_refl b0⟩
    · intro d hd; exact absurd hd (List.not_mem_nil d)
  | cons d0 rest ih =>
    intro st hinv
    have S := selectStep_spec lineNum target st d0 hinv
    have IH := ih (selectStep lineNum target st d0) S.1
    simp only [List.foldl_cons]
    refine ⟨IH.1, ?_, ?_, ?_⟩
    · intro b hb
      rcases IH.2.1 b hb with h | h
      · rcases S.2.1 b h with h' | h'
        · exact Or.inl h'
        · exact Or.inr (by simp [h'])
      · exact Or.inr (List.mem_cons_of_mem _ h)
    · intro b0 hb0
      obtain ⟨b1, hb1, hp1⟩ := S.2.2.1 b0 hb0
      obtain ⟨b, hb, hp2⟩ := IH.2.2.1 b1 hb1
      exact ⟨b, hb, scopePref_trans hp1 hp2⟩
    · intro d hd hqd
      rcases List.mem_cons.mp hd with rfl | hd'
      · rcases S.2.2.2 hqd with ⟨b1, hb1, hp1⟩ | ⟨hnone, hdepth⟩
        · obtain ⟨b, hb, hp2⟩ := IH.2.2.1 b1 hb1
          exact Or.inl ⟨b, hb, scopePref_trans hp1 hp2⟩
        · rcases IH.1 with ⟨hn2, _⟩ | ⟨b, hb, _, hge, _⟩
          · exact Or.inr ⟨hn2, hdepth⟩
          · exact Or.inl ⟨b, hb, Or.inl (by omega)⟩
      · exact IH.2.2.2 d hd' hqd

/-- The query-time selection of `getVariableTypeAtPosition`
(src/extension.js:1429-1441) and `getVariableTypeAtLine`
(src/extension.js:3508-3521): whenever some recorded declaration with a
nonnegative brace depth qualifies, the loop selects a qualifying recorded
declaration that is preferred over every qualifying one — greatest brace
depth, ties broken by the latest line. -/
theorem selectBest_picks_best (decls : List VarDecl) (lineNum : Nat)
    (target : Int) (d : VarDecl) (hd : d ∈ decls)
    (hq : qualifies lineNum target d) (hge : 0 ≤ d.braceDepth) :
    ∃ b, selectBest decls lineNum target = some b ∧ b ∈ decls ∧
      qualifies lineNum target b ∧
      ∀ d' ∈ decls, qualifies lineNum target d' → scopePref d' b := by
  have H := selectFold_spec lineNum target decls (none, -1) (Or.inl ⟨rfl, rfl⟩)
  rcases H.2.2.2 d hd hq with ⟨b, hb, _⟩ | ⟨_, hdepth⟩
  · refine ⟨b, hb, ?_, ?_, ?_⟩
    · rcases H.2.1 b hb with h | h
      · exact absurd h (by simp)
      · exact h
    · rcases H.1 with ⟨hn, _⟩ | ⟨b', hb', _, _, hq'⟩
      · rw [hn] at hb
        exact absurd hb (by simp)
      · rw [hb'] at hb
        cases hb
        exact hq'
    · intro d' hd' hq'
      rcases H.2.2.2 d' hd' hq' with ⟨b2, hb2, hp2⟩ | ⟨hnone, _⟩
      · rw [hb] at hb2
        cases hb2
        exact hp2
      · rw [hnone] at hb
        exact absurd hb (by simp)
  · omega

end Azsl

namespace Azsl

/-- The document of the scope-aware typing scenario: `Foo x;` at top level
and `Bar x;` inside a nested brace block, with uses inside and after the
block. -/
def scopeScenarioDoc : List Chars :=
  [ofStr "Foo x;", ofStr "\x7b", ofStr "Bar x;", ofStr "x;", ofStr "\x7d",
   ofStr "x;"]

/-- A document whose only declaration of `x` sits inside a brace block,
queried after the block has closed. -/
def fallbackScenarioDoc : List Chars :=
  [ofStr "\x7b", ofStr "Surface x;", ofStr "\x7d", ofStr "float y;"]

/-- **C5, counterexample.**  The claim says `getVariableTypeAtPosition`
returns the type of a declaration whose line is at or before the query line
and whose brace depth is at most the depth of the query line.  In
`fallbackScenarioDoc` the only recorded declaration of `x` has brace depth 1
while the depth at query line 3 is 0 — no declaration qualifies — yet the
function returns `Surface` through the scope-insensitive fallback map of
src/extension.js:1411-1414 and 1447-1449. -/
theorem claim_C5_counterexample :
    getVariableTypeAtPosition [] [] fallbackScenarioDoc "x" 3 = some "Surface" ∧
    (collectVarDecls [] [] fallbackScenarioDoc).1.lookup "x" =
      some [⟨"Surface", 1, 1⟩] ∧
    targetBraceDepth fallbackScenarioDoc 3 = 0 ∧
    ¬ (1 : Int) ≤ 0 := by
  exact ⟨rfl, rfl, rfl, by decide⟩

/-- **C5, amended.**  When some recorded declaration with nonnegative brace
depth has declaration line ≤ the query line and brace depth ≤ the brace
depth computed at the query line, the selection loop picks a qualifying
declaration preferred over all qualifying ones (greatest brace depth, then
latest line) — and in particular, for `Foo x;` at top level and `Bar x;`
inside a nested brace block, `x` resolves to `Bar` inside the block and to
`Foo` after it.  Only when no declaration qualifies does the function fall
back to a scope-insensitive map that may return an out-of-scope type
(src/extension.js:1381-1453). -/
theorem claim_C5_amended :
    (∀ (decls : List VarDecl) (lineNum : Nat) (target : Int) (d : VarDecl),
      d ∈ decls → qualifies lineNum target d → 0 ≤ d.braceDepth →
      ∃ b, selectBest decls lineNum target = some b ∧ b ∈ decls ∧
        qualifies lineNum target b ∧
        ∀ d' ∈ decls, qualifies lineNum target d' → scopePref d' b) ∧
    getVariableTypeAtPosition [] [] scopeScenarioDoc "x" 3 = some "Bar" ∧
    getVariableTypeAtPosition [] [] scopeScenarioDoc "x" 5 = some "Foo" ∧
    getVariableTypeAtPosition [] [] scopeScenarioDoc "x" 0 = some "Foo" :=
  ⟨selectBest_picks_best, rfl, rfl, rfl⟩

/-- Witness for C5's amended statement: the selection lemma applied to the
concrete declaration list of `scopeScenarioDoc` at query line 3. -/
theorem claim_C5_witness :
    ∃ b, selectBest [⟨"Foo", 0, 0⟩, ⟨"Bar", 2, 1⟩] 3 1 = some b ∧
      b ∈ [(⟨"Foo", 0, 0⟩ : VarDecl), ⟨"Bar", 2, 1⟩] ∧
      qualifies 3 1 b ∧
      ∀ d' ∈ [(⟨"Foo", 0, 0⟩ : VarDecl), ⟨"Bar", 2, 1⟩],
        qualifies 3 1 d' → scopePref d' b :=
  claim_C5_amended.1 [⟨"Foo", 0, 0⟩, ⟨"Bar", 2, 1⟩] 3 1 ⟨"Bar", 2, 1⟩
    (by simp) ⟨by decide, by decide⟩ (by decide)

end Azsl

namespace Azsl

/-! ## Claim C6: the macro doc-length merge policy -/

theorem string_eq_empty_of_length_eq_zero {s : String} (h : s.length = 0) :
    s = "" := by
  cases s with
  | mk data =>
    cases data with
    | nil => rfl
    | cons c cs => simp [String.length] at h

/-- File A of the doc-merge scenario: `FOO` with a one-line trailing
comment. -/
def macroFileA : List Chars := [ofStr "#define FOO 8 // short note"]

/-- File B of the doc-merge scenario: `FOO` with a three-line preceding
block comment. -/
def macroFileB : List Chars :=
  [ofStr "/* first detail line", ofStr " * second detail line",
   ofStr " * third detail line */", ofStr "#define FOO 9"]

/-- **C6.**  An already-indexed macro entry is overwritten during ingestion
only when the new entry's documentation string is strictly longer (corpus
scan, src/extension.js:1117-1126) or, for the live-document scan, when the
same document produced the existing entry (src/extension.js:2038-2048); and
ingesting `FOO` from a file with a one-line trailing comment and a file with
a three-line preceding block comment, in either order, leaves the longer
documentation in the index. -/
theorem claim_C6_macro_doc_merge :
    (∀ (idx : List (String × MacroEntry)) (uri : String) (d : MacroDef)
      (e : MacroEntry), idx.lookup d.name = some e →
      ¬(e.doc.length < d.doc.length) → macroMergeCorpus idx uri d = idx) ∧
    (∀ (idx : List (String × MacroEntry)) (uri : String) (d : MacroDef)
      (e : MacroEntry), idx.lookup d.name = some e →
      e.doc.length < d.doc.length →
      (macroMergeCorpus idx uri d).lookup d.name =
        some ⟨d.value, d.doc, uri, d.line⟩) ∧
    (∀ (idx : List (String × MacroEntry)) (docUri : String) (d : MacroDef)
      (e : MacroEntry), idx.lookup d.name = some e → docUri ≠ e.uri →
      ¬(e.doc.length < d.doc.length) → macroMergeDoc idx docUri d = idx) ∧
    (ingestFileMacros (ingestFileMacros [] "A" macroFileA) "B" macroFileB).lookup
        "FOO" =
      some ⟨"9", "first detail line\nsecond detail line\nthird detail line",
        "B", 3⟩ ∧
    (ingestFileMacros (ingestFileMacros [] "B" macroFileB) "A" macroFileA).lookup
        "FOO" =
      some ⟨"9", "first detail line\nsecond detail line\nthird detail line",
        "B", 3⟩ := by
  have condFalse : ∀ (d : MacroDef) (e : MacroEntry),
      ¬(e.doc.length < d.doc.length) →
      (decide (d.doc ≠ "") && (decide (e.doc = "") ||
        decide (e.doc.length < d.doc.length))) = false := by
    intro d e hlt
    by_cases he : e.doc = ""
    · have hd : d.doc = "" := by
        by_contra hd0
        apply hlt
        rw [he]
        have hnz : d.doc.length ≠ 0 := fun h0 =>
          hd0 (string_eq_empty_of_length_eq_zero h0)
        have hz : ("" : String).length = 0 := rfl
        omega
      rw [decide_eq_false (by simp [hd] : ¬ d.doc ≠ "")]
      simp
    · rw [decide_eq_false he, decide_eq_false hlt]
      simp
  refine ⟨?_, ?_, ?_, rfl, rfl⟩
  · intro idx uri d e h hlt
    simp only [macroMergeCorpus, h]
    rw [if_neg (by rw [condFalse d e hlt]; simp)]
  · intro idx uri d e h hlt
    have hd : d.doc ≠ "" := by
      intro h0
      rw [h0] at hlt
      have hz : ("" : String).length = 0 := rfl
      omega
    simp only [macroMergeCorpus, h]
    rw [if_pos (by rw [decide_eq_true hd, decide_eq_true hlt]; simp)]
    exact lookup_alistSet_eq idx d.name _
  · intro idx docUri d e h huri hlt
    simp only [macroMergeDoc, h]
    rw [if_neg (by rw [decide_eq_false huri, condFalse d e hlt]; simp)]

/-- Witness for C6: the no-overwrite rule applied at a concrete index and
macro record whose documentation is not longer. -/
theorem claim_C6_witness :
    macroMergeCorpus [("FOO", ⟨"8", "long doc", "A", 0⟩)] "B"
      ⟨"FOO", "9", 3, "tiny"⟩ = [("FOO", ⟨"8", "long doc", "A", 0⟩)] :=
  claim_C6_macro_doc_merge.1 [("FOO", ⟨"8", "long doc", "A", 0⟩)] "B"
    ⟨"FOO", "9", 3, "tiny"⟩ ⟨"8", "long doc", "A", 0⟩ rfl (by decide)


/-! ## Claim C1: the option / ShaderVariantFallback document rule -/

lemma isEmpty_append_singleton (ns : List String) (x : String) :
    (ns ++ [x]).isEmpty = false := by
  cases ns <;> rfl

lemma isEmpty_false_of_contains (ns : List String) (x : String)
    (h : ns.contains x = true) : ns.isEmpty = false := by
  cases ns with
  | nil => simp [List.contains] at h
  | cons a l => rfl

lemma fallbackNonStatic_isEmpty (ns : List String) (p : Chars) :
    (fallbackNonStatic ns p).isEmpty = (ns.isEmpty && !nsHitCore p) := by
  unfold fallbackNonStatic nsHitCore
  cases hm : matchNonStaticOptionDecl p with
  | none => simp
  | some name =>
    simp only [Option.isSome_some, Bool.true_and]
    cases hc : containsSub (ofStr "static") p with
    | true => simp
    | false =>
      rw [if_neg Bool.false_ne_true]
      simp only [Bool.not_false, Bool.not_true, Bool.and_false]
      by_cases hin : ns.contains (toStr name) = true
      · rw [if_pos hin]
        exact isEmpty_false_of_contains ns (toStr name) hin
      · rw [if_neg hin]
        exact isEmpty_append_singleton ns (toStr name)

lemma fallbackSrgStep_fst (ssi : List String) (hf : Bool) (ds : List Diag)
    (idx : Nat) (p : Chars) :
    (fallbackSrgStep ssi hf ds idx p).1 = (hf || fbHitCore p) := by
  unfold fallbackSrgStep fbHitCore
  cases hm : matchSrgLine p with
  | none => simp
  | some pr =>
    obtain ⟨a, b⟩ := pr
    simp

lemma fallbackSrgStep_snd_mem (ssi : List String) (hf : Bool) (ds : List Diag)
    (idx : Nat) (p : Chars) :
    ∀ d ∈ (fallbackSrgStep ssi hf ds idx p).2,
      d ∈ ds ∨ ∃ s t : String,
        d.message =
          "Declaration for semantic " ++ s ++ " used in SRG " ++ t ++
            " was not found" := by
  unfold fallbackSrgStep
  cases hm : matchSrgLine p with
  | none => exact fun d hd => Or.inl hd
  | some pr =>
    obtain ⟨a, b⟩ := pr
    intro d hd
    dsimp only at hd
    by_cases hc : ssi.contains (toStr b) = true
    · rw [if_pos hc] at hd
      exact Or.inl hd
    · rw [if_neg hc] at hd
      rcases List.mem_append.mp hd with h1 | h2
      · exact Or.inl h1
      · refine Or.inr ⟨toStr b, toStr a, ?_⟩
        rw [List.mem_singleton.mp h2]

lemma fallbackScanLine_eq_none (ssi : List String) (st : FallbackScanState)
    (l : Chars) (a : Bool) (h : stripCommentsLine st.inML l = (a, none)) :
    fallbackScanLine ssi st l =
      { st with inML := a, lineIdx := st.lineIdx + 1 } := by
  unfold fallbackScanLine
  rw [h]

lemma fallbackScanLine_eq_empty (ssi : List String) (st : FallbackScanState)
    (l : Chars) (a : Bool) (v : Chars)
    (h : stripCommentsLine st.inML l = (a, some v))
    (he : (trim v).isEmpty = true) :
    fallbackScanLine ssi st l =
      { st with inML := a, lineIdx := st.lineIdx + 1 } := by
  unfold fallbackScanLine
  rw [h]
  dsimp only
  rw [if_pos he]

lemma fallbackScanLine_eq_line (ssi : List String) (st : FallbackScanState)
    (l : Chars) (a : Bool) (v : Chars)
    (h : stripCommentsLine st.inML l = (a, some v))
    (he : (trim v).isEmpty = false) :
    fallbackScanLine ssi st l =
      ⟨a, st.lineIdx + 1, fallbackNonStatic st.nonStatic (trim v),
        (fallbackSrgStep ssi st.hasFallback st.diags st.lineIdx (trim v)).1,
        (fallbackSrgStep ssi st.hasFallback st.diags st.lineIdx (trim v)).2⟩ := by
  unfold fallbackScanLine
  rw [h]
  dsimp only
  rw [if_neg (by simp [he])]

lemma fallbackScanLine_components (ssi : List String) (st : FallbackScanState)
    (l : Chars) :
    (fallbackScanLine ssi st l).inML = scanInML st.inML l ∧
    (fallbackScanLine ssi st l).hasFallback =
      (st.hasFallback || fbHit st.inML l) ∧
    (fallbackScanLine ssi st l).nonStatic.isEmpty =
      (st.nonStatic.isEmpty && !nsHit st.inML l) ∧
    (∀ d ∈ (fallbackScanLine ssi st l).diags,
      d ∈ st.diags ∨ ∃ s t : String,
        d.message =
          "Declaration for semantic " ++ s ++ " used in SRG " ++ t ++
            " was not found") := by
  cases h : stripCommentsLine st.inML l with
  | mk a b =>
    cases b with
    | none =>
      rw [fallbackScanLine_eq_none ssi st l a h]
      unfold scanInML nsHit fbHit
      rw [h]
      exact ⟨rfl, by simp, by simp, fun d hd => Or.inl hd⟩
    | some v =>
      cases he : (trim v).isEmpty with
      | true =>
        rw [fallbackScanLine_eq_empty ssi st l a v h he]
        unfold scanInML nsHit fbHit
        rw [h]
        exact ⟨rfl, by simp [he], by simp [he], fun d hd => Or.inl hd⟩
      | false =>
        rw [fallbackScanLine_eq_line ssi st l a v h he]
        unfold scanInML nsHit fbHit
        rw [h]
        refine ⟨rfl, ?_, ?_, ?_⟩
        · dsimp only
          rw [if_neg (by simp [he])]
          exact fallbackSrgStep_fst ssi st.hasFallback st.diags st.lineIdx
            (trim v)
        · dsimp only
          rw [if_neg (by simp [he])]
          exact fallbackNonStatic_isEmpty st.nonStatic (trim v)
        · dsimp only
          exact fallbackSrgStep_snd_mem ssi st.hasFallback st.diags st.lineIdx
            (trim v)

lemma foldl_hitStep_snd (hit : Bool → Chars → Bool) (lines : List Chars) :
    ∀ (i f : Bool),
      (lines.foldl (hitStep hit) (i, f)).2 =
        (f || (lines.foldl (hitStep hit) (i, false)).2) := by
  induction lines with
  | nil => intro i f; simp
  | cons l ls ih =>
    intro i f
    show (ls.foldl (hitStep hit) (hitStep hit (i, f) l)).2 = _
    rw [show hitStep hit (i, f) l = (scanInML i l, f || hit i l) from rfl,
      ih (scanInML i l) (f || hit i l)]
    rw [show List.foldl (hitStep hit) (i, false) (l :: ls) =
        ls.foldl (hitStep hit) (scanInML i l, false || hit i l) from rfl]
    rw [Bool.false_or, ih (scanInML i l) (hit i l), Bool.or_assoc]

lemma fallbackScan_components (ssi : List String) (lines : List Chars) :
    ∀ (st : FallbackScanState),
      ((lines.foldl (fallbackScanLine ssi) st).hasFallback =
        (st.hasFallback || (lines.foldl (hitStep fbHit) (st.inML, false)).2)) ∧
      ((lines.foldl (fallbackScanLine ssi) st).nonStatic.isEmpty =
        (st.nonStatic.isEmpty &&
          !(lines.foldl (hitStep nsHit) (st.inML, false)).2)) ∧
      (∀ d ∈ (lines.foldl (fallbackScanLine ssi) st).diags,
        d ∈ st.diags ∨ ∃ s t : String,
          d.message =
            "Declaration for semantic " ++ s ++ " used in SRG " ++ t ++
              " was not found") := by
  induction lines with
  | nil => exact fun st => ⟨by simp, by simp, fun d hd => Or.inl hd⟩
  | cons l ls ih =>
    intro st
    obtain ⟨h1, h2, h3, h4⟩ := fallbackScanLine_components ssi st l
    refine ⟨?_, ?_, ?_⟩
    · show (ls.foldl (fallbackScanLine ssi) (fallbackScanLine ssi st l)).hasFallback = _
      rw [(ih (fallbackScanLine ssi st l)).1, h2, h1]
      show _ = (st.hasFallback ||
        (ls.foldl (hitStep fbHit) (hitStep fbHit (st.inML, false) l)).2)
      rw [show hitStep fbHit (st.inML, false) l =
          (scanInML st.inML l, false || fbHit st.inML l) from rfl,
        Bool.false_or,
        foldl_hitStep_snd fbHit ls (scanInML st.inML l) (fbHit st.inML l),
        Bool.or_assoc]
    · show (ls.foldl (fallbackScanLine ssi) (fallbackScanLine ssi st l)).nonStatic.isEmpty = _
      rw [(ih (fallbackScanLine ssi st l)).2.1, h3, h1]
      show _ = (st.nonStatic.isEmpty &&
        !(ls.foldl (hitStep nsHit) (hitStep nsHit (st.inML, false) l)).2)
      rw [show hitStep nsHit (st.inML, false) l =
          (scanInML st.inML l, false || nsHit st.inML l) from rfl,
        Bool.false_or,
        foldl_hitStep_snd nsHit ls (scanInML st.inML l) (nsHit st.inML l),
        Bool.not_or, Bool.and_assoc]
    · intro d hd
      rcases (ih (fallbackScanLine ssi st l)).2.2 d hd with hin | hmsg
      · rcases h4 d hin with hin2 | hmsg2
        · exact Or.inl hin2
        · exact Or.inr hmsg2
      · exact Or.inr hmsg

lemma data_append (a b : String) : (a ++ b).data = a.data ++ b.data := rfl

lemma semanticMsg_ne_fallback (s t : String) :
    ("Declaration for semantic " ++ s ++ " used in SRG " ++ t ++
      " was not found") ≠ fallbackErrorMessage := by
  intro h
  have h2 := congrArg (fun z : String => z.data.head?) h
  simp only [data_append, List.append_assoc] at h2
  rw [List.cons_append, List.head?_cons] at h2
  rw [show fallbackErrorMessage.data.head? = some 'I' from rfl] at h2
  exact absurd h2 (by decide)

lemma filter_fallbackMsg_nil (ds : List Diag)
    (h : ∀ d ∈ ds, d.message ≠ fallbackErrorMessage) :
    ds.filter (fun d => d.message == fallbackErrorMessage) = [] := by
  induction ds with
  | nil => rfl
  | cons a l ih =>
    have hpa : (a.message == fallbackErrorMessage) = false :=
      beq_eq_false_iff_ne.mpr (h a (List.mem_cons_self a l))
    simp [List.filter_cons, hpa,
      ih (fun d hd => h d (List.mem_cons_of_mem a hd))]

lemma isEmpty_map {α β : Type} (f : α → β) (l : List α) :
    (l.map f).isEmpty = l.isEmpty := by
  cases l <;> rfl

lemma isEmpty_filter_eq_not_any {α : Type} (p : α → Bool) (l : List α) :
    (l.filter p).isEmpty = !l.any p := by
  induction l with
  | nil => rfl
  | cons a t ih =>
    cases hp : p a
    · simp [List.filter_cons, List.any_cons, hp, ih]
    · simp [List.filter_cons, List.any_cons, hp]

lemma fallbackFromIndex_isEmpty (fileName : String)
    (optionIndex : List (String × Bool)) (hA : isAzslFile fileName = true) :
    (fallbackFromIndex fileName optionIndex).isEmpty =
      !(optionIndex.any fun p => !p.2) := by
  unfold fallbackFromIndex
  rw [hA]
  simp [isEmpty_map, isEmpty_filter_eq_not_any]

/-- Claim C1 (amended): for documents whose FILE NAME ends in .azsl (and not
.azsli) — the code gates the whole rule on that — the validation pass emits
the document-level ShaderVariantFallback error, exactly once and anchored at
line 0, if and only if a non-static option is declared (in the indexed
option table or in the comment-stripped document) and no SRG of the document
declares a fallback-capable semantic. -/
theorem claim_C1_amended (fileName : String)
    (optionIndex : List (String × Bool)) (srgSemanticIndex : List String)
    (lines : List Chars) (hA : isAzslFile fileName = true) :
    (fallbackPassDiags fileName optionIndex srgSemanticIndex lines).filter
        (fun d => d.message == fallbackErrorMessage) =
      (if ((optionIndex.any fun p => !p.2) ||
            docDeclaresNonStaticOption lines) &&
          !docDeclaresFallbackSrg lines then
        [⟨0, fallbackErrorMessage⟩]
      else []) := by
  obtain ⟨hfb, hns, hdg⟩ := fallbackScan_components srgSemanticIndex lines
    ⟨false, 0, fallbackFromIndex fileName optionIndex, false, []⟩
  unfold fallbackPassDiags fallbackFinal
  rw [List.filter_append,
    filter_fallbackMsg_nil _ (fun d hd => by
      rcases hdg d hd with hin | ⟨s, t, hmsg⟩
      · exact absurd hin (List.not_mem_nil d)
      · rw [hmsg]
        exact semanticMsg_ne_fallback s t),
    List.nil_append, hA, hns, hfb]
  rw [show ((⟨false, 0, fallbackFromIndex fileName optionIndex, false, []⟩ :
      FallbackScanState).inML) = false from rfl]
  rw [show ((⟨false, 0, fallbackFromIndex fileName optionIndex, false, []⟩ :
      FallbackScanState).nonStatic) = fallbackFromIndex fileName optionIndex
    from rfl]
  rw [show ((⟨false, 0, fallbackFromIndex fileName optionIndex, false, []⟩ :
      FallbackScanState).hasFallback) = false from rfl]
  rw [fallbackFromIndex_isEmpty fileName optionIndex hA,
    show (lines.foldl (hitStep nsHit) (false, false)).2 =
      docDeclaresNonStaticOption lines from rfl,
    show (lines.foldl (hitStep fbHit) (false, false)).2 =
      docDeclaresFallbackSrg lines from rfl]
  cases hany : (optionIndex.any fun p => !p.2) <;>
    cases hns2 : docDeclaresNonStaticOption lines <;>
      cases hfb2 : docDeclaresFallbackSrg lines <;>
        simp [List.filter]

/-- A document declaring one non-static option and no SRG at all. -/
def variantScenarioDoc : List Chars :=
  [ofStr "option bool o_useFeature = true;"]

/-- Counterexample for C1: the claim omits the file-name gate.  For the same
document — which does declare a non-static option and no fallback-capable
SRG — validation of a file named with the .azsli extension emits NO
diagnostic at all, while the claim demands the fallback error; under a .azsl
name the error does appear. -/
theorem claim_C1_counterexample :
    docDeclaresNonStaticOption variantScenarioDoc = true ∧
    docDeclaresFallbackSrg variantScenarioDoc = false ∧
    fallbackPassDiags "Example.azsli" [] [] variantScenarioDoc = [] ∧
    fallbackPassDiags "Example.azsl" [] [] variantScenarioDoc =
      [⟨0, fallbackErrorMessage⟩] :=
  ⟨rfl, rfl, rfl, rfl⟩

/-- Witness for C1: the amended rule applied to a concrete .azsl document
with one non-static option and no SRG. -/
theorem claim_C1_witness :
    isAzslFile "Example.azsl" = true ∧
    (fallbackPassDiags "Example.azsl" [] [] variantScenarioDoc).filter
        (fun d => d.message == fallbackErrorMessage) =
      (if ((([] : List (String × Bool)).any fun p => !p.2) ||
            docDeclaresNonStaticOption variantScenarioDoc) &&
          !docDeclaresFallbackSrg variantScenarioDoc then
        [⟨0, fallbackErrorMessage⟩]
      else []) :=
  ⟨rfl, claim_C1_amended "Example.azsl" [] [] variantScenarioDoc rfl⟩



/-! ## Claims C2 and C7: the member-access checks of the validation sweep -/

/-- A four-line document declaring a float3 variable and accessing `.xyzw`,
`.q` and `.xyz` on it. -/
def swizzleScenarioDoc : List Chars :=
  [ofStr "float3 v;", ofStr "float4 w = v.xyzw;", ofStr "float f = v.q;",
   ofStr "float3 g = v.xyz;"]

/-- The validation environment `validateDocument` builds for
`swizzleScenarioDoc`: the four declared names, the recorded type and
declaration of `v`, and the seeded Atom-type member baselines. -/
def swizzleScenarioEnv : ValEnv where
  declarations := ["v", "w", "f", "g"]
  pascalCaseTypes := []
  knownStructs := []
  structIndexKeys := []
  structMembers := []
  srgMembers := []
  srgMemberIndexKeys := []
  atomTypeMembers := seededAtomTypeMembers
  variableTypes := [("v", "float3")]
  variableDeclarations := [("v", [⟨"float3", 0, 0⟩])]
  functionScopes := []
  docLines := swizzleScenarioDoc

/-- Counterexample for C2: on a variable whose inferred type is float3 the
sweep emits NO diagnostic for `.xyzw` and none for `.q` either — the claim
demands a diagnostic for each.  (`.xyz` is accepted, as claimed.) -/
theorem claim_C2_counterexample :
    getVariableTypeAtLine swizzleScenarioEnv.variableDeclarations
        swizzleScenarioEnv.variableTypes "v" 1 0 = some "float3" ∧
    sweepLineIdentifiers swizzleScenarioEnv (ofStr "float4 w = v.xyzw;") 1 0 =
      [] ∧
    sweepLineIdentifiers swizzleScenarioEnv (ofStr "float f = v.q;") 2 0 =
      [] ∧
    sweepLineIdentifiers swizzleScenarioEnv (ofStr "float3 g = v.xyz;") 3 0 =
      [] :=
  ⟨rfl, rfl, rfl, rfl⟩

/-- Claim C2 (amended): the sweep's swizzle rule is only the shape regex
`^[xyzwrgba]{1,4}$` — a swizzle-shaped accessor of any length up to 4 on a
vector variable is accepted regardless of the vector's dimension or of
repeated components, and a non-swizzle-shaped accessor on a vector type that
is absent from every member table falls through the dispatch without a
diagnostic; so NO accessor on a float3 variable is ever rejected.  The
distinct-index enumeration (`getSwizzleProperties`, which indeed lacks
`xyzw`, `q` and the repeated `xx` for float3) feeds completion only. -/
theorem claim_C2_amended (env : ValEnv) (identifier : String)
    (h1 : alistHas env.atomTypeMembers "float3" = false)
    (h2 : alistHas env.structMembers "float3" = false)
    (h3 : env.structIndexKeys.contains "float3" = false)
    (h4 : alistHas env.srgMembers "float3" = false) :
    typeDispatch env identifier "float3" = CheckOutcome.skip ∧
    (getSwizzleProperties "float3").contains "xyz" = true ∧
    (getSwizzleProperties "float3").contains "rgb" = true ∧
    (getSwizzleProperties "float3").contains "xy" = true ∧
    (getSwizzleProperties "float3").contains "xyzw" = false ∧
    (getSwizzleProperties "float3").contains "q" = false ∧
    (getSwizzleProperties "float3").contains "xx" = false ∧
    (getSwizzleProperties "float3").all distinctIndices = true := by
  refine ⟨?_, by decide, by decide, by decide, by decide, by decide, by decide,
    by decide⟩
  have hvec : isVectorType "float3" = true := by decide
  have hatom : atomTypesValidate.contains "float3" = false := by decide
  have htex : startsWithChars (ofStr "Texture") (ofStr "float3") = false := by
    decide
  unfold typeDispatch
  by_cases hs : isSwizzleShape identifier = true
  · simp [hs, hvec]
  · have hs2 : isSwizzleShape identifier = false := by
      revert hs
      cases isSwizzleShape identifier <;> simp
    have hatom2 : "float3" ∉ atomTypesValidate := by decide
    have h3m : "float3" ∉ env.structIndexKeys := by simpa using h3
    simp [hs2, hvec, h1, h2, h3m, h4, hatom2, htex]

/-- Witness for C2: the dispatch accepts the over-long accessor `xyzw` on a
float3 variable in the concrete scenario environment. -/
theorem claim_C2_witness :
    alistHas swizzleScenarioEnv.atomTypeMembers "float3" = false ∧
    alistHas swizzleScenarioEnv.structMembers "float3" = false ∧
    swizzleScenarioEnv.structIndexKeys.contains "float3" = false ∧
    alistHas swizzleScenarioEnv.srgMembers "float3" = false ∧
    typeDispatch swizzleScenarioEnv "xyzw" "float3" = CheckOutcome.skip :=
  ⟨rfl, rfl, rfl, rfl,
    (claim_C2_amended swizzleScenarioEnv "xyzw" rfl rfl rfl rfl).1⟩

/-- An environment holding one SRG `MySrg` with member `m_foo` and no
recorded type for `MySrg::m_foo`. -/
def srgScenarioEnv : ValEnv where
  declarations := []
  pascalCaseTypes := []
  knownStructs := []
  structIndexKeys := []
  structMembers := []
  srgMembers := [("MySrg", ["m_foo"])]
  srgMemberIndexKeys := []
  atomTypeMembers := seededAtomTypeMembers
  variableTypes := []
  variableDeclarations := []
  functionScopes := []
  docLines := []

/-- Counterexample for C7: the operand `MySrg::m_foo` of the access
`.hello` has no resolvable type, the member does exist, and the sweep still
emits a diagnostic — the invalid-swizzle-property error — where the claim
demands total suppression. -/
theorem claim_C7_counterexample :
    srgScenarioEnv.variableTypes.lookup "MySrg::m_foo" = none ∧
    srgMemberExists srgScenarioEnv "MySrg" "m_foo" = true ∧
    checkIdentifier srgScenarioEnv (ofStr "x = MySrg::m_foo.hello;")
        (ofStr "x = MySrg::m_foo.hello;") 17 "hello" 0 0 =
      CheckOutcome.diag ("invalid swizzle property " ++ sq ++ "hello" ++ sq) ∧
    sweepLineIdentifiers srgScenarioEnv (ofStr "x = MySrg::m_foo.hello;") 0 0 =
      [⟨0, "use of undeclared identifier " ++ sq ++ "x" ++ sq⟩,
       ⟨0, "invalid swizzle property " ++ sq ++ "hello" ++ sq⟩] :=
  ⟨rfl, rfl, rfl, rfl⟩

/-- Claim C7 (amended): when the left operand of a member access resolves to
no type, the membership check is suppressed — EXCEPT that an access on an
existing SRG member of unknown type is checked against the swizzle shape
regex: a non-swizzle-shaped accessor gets the invalid-swizzle-property
diagnostic, a swizzle-shaped one is accepted; an unresolved plain variable
operand, or a missing SRG member, is passed over silently. -/
theorem claim_C7_amended (env : ValEnv) (identifier : String) :
    (∀ varName : String,
      afterResolve env identifier none (some varName) none =
        CheckOutcome.skip) ∧
    (∀ srgName memberName : String,
      srgMemberExists env srgName memberName = false →
      afterResolve env identifier (some (srgName, memberName)) none none =
        CheckOutcome.skip) ∧
    (∀ srgName memberName : String,
      srgMemberExists env srgName memberName = true →
      isSwizzleShape identifier = false →
      afterResolve env identifier (some (srgName, memberName)) none none =
        CheckOutcome.diag
          ("invalid swizzle property " ++ sq ++ identifier ++ sq)) ∧
    (∀ srgName memberName : String,
      srgMemberExists env srgName memberName = true →
      isSwizzleShape identifier = true →
      afterResolve env identifier (some (srgName, memberName)) none none =
        CheckOutcome.skip) := by
  refine ⟨fun varName => rfl, ?_, ?_, ?_⟩
  · intro s m h
    unfold afterResolve
    simp [h]
  · intro s m h hs
    unfold afterResolve
    simp [h, hs]
  · intro s m h hs
    unfold afterResolve
    simp [h, hs]

/-- Witness for C7: the amended rule applied to the concrete SRG scenario:
the member exists, `hello` is not swizzle-shaped, and the diagnostic is
emitted despite the unresolved type. -/
theorem claim_C7_witness :
    srgMemberExists srgScenarioEnv "MySrg" "m_foo" = true ∧
    isSwizzleShape "hello" = false ∧
    afterResolve srgScenarioEnv "hello" (some ("MySrg", "m_foo")) none none =
      CheckOutcome.diag ("invalid swizzle property " ++ sq ++ "hello" ++ sq) :=
  ⟨rfl, rfl,
    (claim_C7_amended srgScenarioEnv "hello").2.2.1 "MySrg" "m_foo" rfl rfl⟩


end Azsl
